import Mathlib

/-!
The file `app/app.go` of go-todo-rest-api-example.

A shallow embedding of `package app`: the `App` value, its bootstrap
(`Initialize`), its route table (`setRouters` with the `Get`/`Post`/`Put`/`Delete`
helpers) and the fourteen handler wrappers.

External effects (logging, `gorm.Open`, `time.Sleep`, `model.DBMigrate`, the calls
into package `handler`) are recorded as events of a trace, oldest first.  The
third-party libraries the file calls are modelled by their observable behaviour:

* `gopkg.in/matryer/try.v1` : `Do` calls the function with attempt numbers
  `1, 2, ...` until it returns `retry = false` or a nil error, and gives up with
  its own error once the attempt number exceeds `MaxRetries` (10);
* `github.com/gorilla/mux` : a path template is compiled to an anchored regular
  expression, the literal text quoted and every variable `{name}` or
  `{name:pattern}` replaced by a group holding `pattern`, the default pattern of a
  path variable being `[^/]+`; `Router.Match` walks the routes in registration
  order and takes the first whose matchers all accept the request;
  `Router.ServeHTTP`, through which `Run` serves every request, first brings the
  path to canonical form (`cleanPath`, on top of `path.Clean` of the Go library) and
  answers with a redirect when that changes it, and only otherwise calls
  `Router.Match`.
-/

namespace TodoApp

/-! ## Data model -/

/-- The fourteen methods of `App` that serve requests. -/
inductive HandlerName
  | GetAllProjects | CreateProject | GetProject | UpdateProject | DeleteProject
  | ArchiveProject | RestoreProject
  | GetAllTasks | CreateTask | GetTask | UpdateTask | DeleteTask
  | CompleteTask | UndoTask
  deriving DecidableEq, Repr

/-- A `*gorm.DB`: `none` is the nil pointer, `some h` the handle with identity `h`. -/
abbrev DBPtr := Option Nat

/-- An `error` value: `none` is nil, `some msg` an error whose `Error()` text is `msg`. -/
abbrev GoError := Option String

/-- A route of a `mux.Router`: the path template, the handler function and the
method matcher (`none` while `Methods` has not been called on the route). -/
structure Route where
  path : String
  handler : HandlerName
  methods : Option (List String)
  deriving DecidableEq, Repr

/-- A `mux.Router`, reduced to its routes in registration order. -/
structure Router where
  routes : List Route
  deriving DecidableEq, Repr

/-- App has router and db instances; both fields are pointers and start out nil. -/
structure App where
  Router : Option Router
  DB : DBPtr
  deriving DecidableEq, Repr

/-- The part of `config.Config` that `Initialize` reads. -/
structure DBConfig where
  Dialect : String
  Host : String
  Port : String
  DbName : String
  Username : String
  Password : String
  SslMode : String
  deriving DecidableEq, Repr

/-- An `http.ResponseWriter`, known by its identity. -/
abbrev ResponseWriter := Nat

/-- The part of an `*http.Request` that routing reads. -/
structure Request where
  Method : String
  Path : String
  deriving DecidableEq, Repr

/-- The observable effects of the code in `app.go`; the argument of `sleep` is a
`time.Duration`, a number of nanoseconds. The last five belong to `Run`: the call of
`http.ListenAndServe`, the three answers that the router gives without calling a handler
(the redirect to the canonical path, the answer "not found" or "method not allowed", and
the failed request on a nil router), and `log.Fatal`. -/
inductive Event
  | logPrint (msg : String)
  | gormOpen (dialect : String) (uri : String)
  | sleep (d : Nat)
  | logFatalf (msg : String)
  | dbMigrate (db : DBPtr)
  | newRouter
  | handleFunc (path : String) (f : HandlerName)
  | methods (ms : List String)
  | handlerCall (name : HandlerName) (db : DBPtr) (w : ResponseWriter) (r : Request)
  | listenAndServe (host : String)
  | redirect (w : ResponseWriter) (location : String)
  | notFound (w : ResponseWriter)
  | servePanic (w : ResponseWriter)
  | logFatal (msg : String)
  deriving DecidableEq, Repr

/-! ## gorilla/mux: templates, matching, dispatch -/

/-- The two character classes that occur in the templates of `setRouters`:
`[^/]` (the default of a path variable) and `[0-9]`. -/
inductive CharClass
  | notSlash | digit
  deriving DecidableEq, Repr

/-- Membership of a character in a class. -/
def CharClass.test : CharClass → Char → Bool
  | .notSlash, c => c != '/'
  | .digit, c => c.isDigit

/-- A piece of a compiled template: quoted literal text, or a group `cls+`. -/
inductive Piece
  | lit (s : List Char)
  | plus (cls : CharClass)
  deriving DecidableEq, Repr

/-- The pattern of a variable: the text after the first `:` of `name:pattern`, and the
default `[^/]+` when there is none. Of explicit patterns only `[0-9]+` is supported. -/
def varPattern (body : List Char) : Option CharClass :=
  match body.dropWhile (fun c => c != ':') with
  | [] => some .notSlash
  | _ :: patt => if patt = "[0-9]+".toList then some .digit else none

/-- The body of `newRouteRegexp` for a path template: `cur` is the text read since the
last brace (reversed), `inVar` tells whether a `{` is open. Unbalanced or nested braces
and unsupported patterns give `none`. -/
def compileFrom : List Char → List Char → Bool → Option (List Piece)
  | [], cur, inVar => if inVar then none else some [.lit cur.reverse]
  | c :: cs, cur, inVar =>
    if c = '{' then
      if inVar then none
      else (compileFrom cs [] true).map (fun ps => .lit cur.reverse :: ps)
    else if c = '}' then
      if inVar then
        match varPattern cur.reverse with
        | none => none
        | some cls => (compileFrom cs [] false).map (fun ps => .plus cls :: ps)
      else none
    else compileFrom cs (c :: cur) inVar

/-- The compiled form of a path template (`^` and `$` are implicit: a path matches when
the pieces consume all of it). -/
def compileTemplate (tpl : String) : Option (List Piece) :=
  compileFrom tpl.toList [] false

/-- Strips the literal `s` from the front of the input. -/
def stripLit : List Char → List Char → Option (List Char)
  | [], cs => some cs
  | _ :: _, [] => none
  | a :: s, c :: cs => if a = c then stripLit s cs else none

/-- Matching of a group `cls+` followed by the continuation `k`: one or more characters
of the class, then `k` on what is left. -/
def matchPlus (cls : CharClass) (k : List Char → Bool) : List Char → Bool
  | [] => false
  | c :: cs => cls.test c && (k cs || matchPlus cls k cs)

/-- Whether the pieces match the whole input. -/
def matchPieces : List Piece → List Char → Bool
  | [], cs => cs.isEmpty
  | .lit s :: ps, cs =>
    match stripLit s cs with
    | none => false
    | some rest => matchPieces ps rest
  | .plus cls :: ps, cs => matchPlus cls (matchPieces ps) cs

/-- The path matcher of a route. -/
def Route.matchesPath (rt : Route) (path : String) : Bool :=
  match compileTemplate rt.path with
  | none => false
  | some ps => matchPieces ps path.toList

/-- The method matcher of a route: absent, or the request method is one of the listed. -/
def Route.matchesMethod (rt : Route) (method : String) : Bool :=
  match rt.methods with
  | none => true
  | some ms => ms.contains method

/-- The `Route.Match` of mux: every matcher of the route accepts the request. -/
def Route.Match (rt : Route) (method path : String) : Bool :=
  rt.matchesPath path && rt.matchesMethod method

/-- The `Router.Match` of mux: the first route in registration order that matches. It is
the route lookup only; requests reach it through `Router.ServeHTTP`, after the check of
the path's canonical form. -/
def Router.Match (r : Router) (method path : String) : Option HandlerName :=
  (r.routes.find? (fun rt => rt.Match method path)).map (fun rt => rt.handler)

/-- The `strings.ToUpper` on a list of characters. -/
def toUpper (s : String) : String := ⟨s.toList.map Char.toUpper⟩

/-- The `mux.NewRouter()`: a router without routes. -/
def NewRouter : Router := ⟨[]⟩

/-- The `Router.HandleFunc(path, f)`: appends a route for `path` with handler `f`. -/
def Router.HandleFunc (r : Router) (path : String) (f : HandlerName) : Router :=
  ⟨r.routes ++ [⟨path, f, none⟩]⟩

/-- The `Route.Methods(ms...)` applied to the route that `HandleFunc` just returned,
which is the last of the router. -/
def Router.Methods (r : Router) (ms : List String) : Router :=
  match r.routes.reverse with
  | [] => r
  | rt :: before => ⟨(({ rt with methods := some (ms.map toUpper) }) :: before).reverse⟩

/-! ## The `App` -/

/-- The program state that the methods of `App` act on: the receiver and the effects
performed so far. -/
structure State where
  app : App
  trace : List Event
  deriving DecidableEq, Repr

/-- The common body of `Get`, `Post`, `Put` and `Delete`:
`a.Router.HandleFunc(path, f).Methods(m)`. A nil `a.Router` is a nil dereference (`none`). -/
def App.handle (m : String) (path : String) (f : HandlerName) (s : State) : Option State :=
  match s.app.Router with
  | none => none
  | some r =>
    some { app := { s.app with Router := some ((r.HandleFunc path f).Methods [m]) },
           trace := s.trace ++ [.handleFunc path f, .methods [m]] }

/-- Get wraps the router for GET method. -/
def App.Get (path : String) (f : HandlerName) (s : State) : Option State :=
  App.handle "GET" path f s

/-- Post wraps the router for POST method. -/
def App.Post (path : String) (f : HandlerName) (s : State) : Option State :=
  App.handle "POST" path f s

/-- Put wraps the router for PUT method. -/
def App.Put (path : String) (f : HandlerName) (s : State) : Option State :=
  App.handle "PUT" path f s

/-- Delete wraps the router for DELETE method. -/
def App.Delete (path : String) (f : HandlerName) (s : State) : Option State :=
  App.handle "DELETE" path f s

/-- The function setRouters sets the all required routers. -/
def App.setRouters (s : State) : Option State :=
  -- Routing for handling the projects
  App.Get "/projects" .GetAllProjects s
  |>.bind (App.Post "/projects" .CreateProject)
  |>.bind (App.Get "/projects/{title}" .GetProject)
  |>.bind (App.Put "/projects/{title}" .UpdateProject)
  |>.bind (App.Delete "/projects/{title}" .DeleteProject)
  |>.bind (App.Put "/projects/{title}/archive" .ArchiveProject)
  |>.bind (App.Delete "/projects/{title}/archive" .RestoreProject)
  -- Routing for handling the tasks
  |>.bind (App.Get "/projects/{title}/tasks" .GetAllTasks)
  |>.bind (App.Post "/projects/{title}/tasks" .CreateTask)
  |>.bind (App.Get "/projects/{title}/tasks/{id:[0-9]+}" .GetTask)
  |>.bind (App.Put "/projects/{title}/tasks/{id:[0-9]+}" .UpdateTask)
  |>.bind (App.Delete "/projects/{title}/tasks/{id:[0-9]+}" .DeleteTask)
  |>.bind (App.Put "/projects/{title}/tasks/{id:[0-9]+}/complete" .CompleteTask)
  |>.bind (App.Delete "/projects/{title}/tasks/{id:[0-9]+}/complete" .UndoTask)

/-! ### Handlers -/

/-- The functions of package `handler`, which is not part of this file: a call is
recorded with the function's name and its three arguments. -/
def handler.call (name : HandlerName) (db : DBPtr) (w : ResponseWriter) (r : Request)
    (trace : List Event) : List Event :=
  trace ++ [.handlerCall name db w r]

def handler.GetAllProjects := handler.call .GetAllProjects
def handler.CreateProject := handler.call .CreateProject
def handler.GetProject := handler.call .GetProject
def handler.UpdateProject := handler.call .UpdateProject
def handler.DeleteProject := handler.call .DeleteProject
def handler.ArchiveProject := handler.call .ArchiveProject
def handler.RestoreProject := handler.call .RestoreProject
def handler.GetAllTasks := handler.call .GetAllTasks
def handler.CreateTask := handler.call .CreateTask
def handler.GetTask := handler.call .GetTask
def handler.UpdateTask := handler.call .UpdateTask
def handler.DeleteTask := handler.call .DeleteTask
def handler.CompleteTask := handler.call .CompleteTask
def handler.UndoTask := handler.call .UndoTask

/- Projects Handlers -/

def App.GetAllProjects (w : ResponseWriter) (r : Request) (s : State) : State :=
  { s with trace := handler.GetAllProjects s.app.DB w r s.trace }

def App.CreateProject (w : ResponseWriter) (r : Request) (s : State) : State :=
  { s with trace := handler.CreateProject s.app.DB w r s.trace }

def App.GetProject (w : ResponseWriter) (r : Request) (s : State) : State :=
  { s with trace := handler.GetProject s.app.DB w r s.trace }

def App.UpdateProject (w : ResponseWriter) (r : Request) (s : State) : State :=
  { s with trace := handler.UpdateProject s.app.DB w r s.trace }

def App.DeleteProject (w : ResponseWriter) (r : Request) (s : State) : State :=
  { s with trace := handler.DeleteProject s.app.DB w r s.trace }

def App.ArchiveProject (w : ResponseWriter) (r : Request) (s : State) : State :=
  { s with trace := handler.ArchiveProject s.app.DB w r s.trace }

def App.RestoreProject (w : ResponseWriter) (r : Request) (s : State) : State :=
  { s with trace := handler.RestoreProject s.app.DB w r s.trace }

/- Tasks Handlers -/

def App.GetAllTasks (w : ResponseWriter) (r : Request) (s : State) : State :=
  { s with trace := handler.GetAllTasks s.app.DB w r s.trace }

def App.CreateTask (w : ResponseWriter) (r : Request) (s : State) : State :=
  { s with trace := handler.CreateTask s.app.DB w r s.trace }

def App.GetTask (w : ResponseWriter) (r : Request) (s : State) : State :=
  { s with trace := handler.GetTask s.app.DB w r s.trace }

def App.UpdateTask (w : ResponseWriter) (r : Request) (s : State) : State :=
  { s with trace := handler.UpdateTask s.app.DB w r s.trace }

def App.DeleteTask (w : ResponseWriter) (r : Request) (s : State) : State :=
  { s with trace := handler.DeleteTask s.app.DB w r s.trace }

def App.CompleteTask (w : ResponseWriter) (r : Request) (s : State) : State :=
  { s with trace := handler.CompleteTask s.app.DB w r s.trace }

def App.UndoTask (w : ResponseWriter) (r : Request) (s : State) : State :=
  { s with trace := handler.UndoTask s.app.DB w r s.trace }

/-- The method of `App` that a route's handler value is bound to. -/
def App.method : HandlerName → ResponseWriter → Request → State → State
  | .GetAllProjects => App.GetAllProjects
  | .CreateProject => App.CreateProject
  | .GetProject => App.GetProject
  | .UpdateProject => App.UpdateProject
  | .DeleteProject => App.DeleteProject
  | .ArchiveProject => App.ArchiveProject
  | .RestoreProject => App.RestoreProject
  | .GetAllTasks => App.GetAllTasks
  | .CreateTask => App.CreateTask
  | .GetTask => App.GetTask
  | .UpdateTask => App.UpdateTask
  | .DeleteTask => App.DeleteTask
  | .CompleteTask => App.CompleteTask
  | .UndoTask => App.UndoTask

/-! ### Bootstrap -/

/-- The value `time.Second`, in nanoseconds. -/
def Second : Nat := 1000000000

/-- The `MaxRetries` of package `try`: the maximum number of retries before bailing. -/
def MaxRetries : Nat := 10

/-- The `errMaxRetriesReached` of package `try`. -/
def errMaxRetriesReached : GoError := some "exceeded retry limit"

/-- The loop of `try.Do`: `left` is `MaxRetries + 1 - attempt`, so that `left = 0` is
the test `attempt > MaxRetries` after the increment. -/
def tryDoLoop {σ : Type} (fn : Nat → σ → (Bool × GoError) × σ) : Nat → Nat → σ → GoError × σ
  | 0, _, s => (errMaxRetriesReached, s)
  | left + 1, attempt, s =>
    let out := fn attempt s
    let cont := out.1.1
    let err := out.1.2
    if !cont || err.isNone then (err, out.2)
    else tryDoLoop fn left (attempt + 1) out.2

/-- The `try.Do`: keeps trying the function until the second argument returns false, or
no error is returned. -/
def tryDo {σ : Type} (fn : Nat → σ → (Bool × GoError) × σ) (s : σ) : GoError × σ :=
  tryDoLoop fn MaxRetries 1 s

/-- What a call of `gorm.Open` returns. -/
structure OpenResult where
  db : DBPtr
  err : GoError
  deriving DecidableEq, Repr

/-- The surroundings of `Initialize`: what the `n`-th call of `gorm.Open` returns
(`n = 1, 2, ...`), and the function `model.DBMigrate`. -/
structure Env where
  gormOpen : Nat → OpenResult
  DBMigrate : DBPtr → DBPtr

/-- The variables of `Initialize` that the closure passed to `try.Do` works on: the
captured `db`, the number of calls of `gorm.Open` so far, and the effects so far. -/
structure ConnState where
  db : DBPtr
  opens : Nat
  trace : List Event
  deriving DecidableEq, Repr

/-- The text of the connection string. -/
def dbURI (config : DBConfig) : String :=
  "host=" ++ config.Host ++ " port=" ++ config.Port ++ " dbname=" ++ config.DbName
    ++ " user=" ++ config.Username ++ " password=" ++ config.Password
    ++ " sslmode=" ++ config.SslMode

/-- The closure that `Initialize` passes to `try.Do`. -/
def connect (env : Env) (config : DBConfig) (attempt : Nat) (s : ConnState) :
    (Bool × GoError) × ConnState :=
  let res := env.gormOpen (s.opens + 1)
  let s1 : ConnState :=
    { db := res.db, opens := s.opens + 1,
      trace := s.trace ++ [.gormOpen config.Dialect (dbURI config)] }
  let s2 : ConnState :=
    if res.err.isSome then
      { s1 with trace := s1.trace ++ [.logPrint "Connection failed, retrying...", .sleep (5 * Second)] }
    else s1
  ((decide (attempt < 5), res.err), s2) -- try 5 times

/-- How a run of `Initialize` ends: it returns, `log.Fatalf` exits the process, or a nil
pointer is dereferenced. -/
inductive Status
  | returned | exited | panicked
  deriving DecidableEq, Repr

/-- The result of a run of `Initialize`. -/
structure Outcome where
  app : App
  trace : List Event
  status : Status
  deriving DecidableEq, Repr

/-- Initialize the app with predefined configuration. -/
def App.Initialize (env : Env) (config : DBConfig) (a : App) : Outcome :=
  let t0 : List Event :=
    [.logPrint (dbURI config), .logPrint "Trying connection to the database..."]
  let res := tryDo (connect env config) { db := none, opens := 0, trace := t0 }
  match res.1 with
  | some e =>
    { app := a,
      trace := res.2.trace ++ [.logFatalf ("Could not connect to the database. " ++ e)],
      status := .exited }
  | none =>
    let a1 : App := { a with DB := env.DBMigrate res.2.db }
    let a2 : App := { a1 with Router := some NewRouter }
    match App.setRouters { app := a2, trace := res.2.trace ++ [.dbMigrate res.2.db, .newRouter] } with
    | none => { app := a2, trace := res.2.trace ++ [.dbMigrate res.2.db, .newRouter], status := .panicked }
    | some st => { app := st.app, trace := st.trace, status := .returned }

/-! ## Semantics of compiled templates -/

/-- The language of a list of pieces, as that of the regular expression they stand for. -/
def Matches : List Piece → List Char → Prop
  | [], cs => cs = []
  | .lit s :: ps, cs => ∃ rest, cs = s ++ rest ∧ Matches ps rest
  | .plus cls :: ps, cs =>
    ∃ u rest, u ≠ [] ∧ (∀ c ∈ u, cls.test c = true) ∧ cs = u ++ rest ∧ Matches ps rest

/-- The number of `/` in a text. -/
def slashes (cs : List Char) : Nat := cs.count '/'

/-- The number of `/` in the literal text of a compiled template. -/
def pieceSlashes : List Piece → Nat
  | [] => 0
  | .lit s :: ps => slashes s + pieceSlashes ps
  | .plus _ :: ps => pieceSlashes ps

/-- What a request must look like for a route with a single method to match it: that
method, and the number of `/` of its template. -/
def Route.signature (rt : Route) : Option (String × Nat) :=
  match rt.methods, compileTemplate rt.path with
  | some [m], some ps => some (m, pieceSlashes ps)
  | _, _ => none

/-! ## The route table -/

/-- The `App` right before `a.setRouters()` in `Initialize`: a fresh router. -/
def freshState (db : DBPtr) (trace : List Event) : State :=
  { app := { Router := some NewRouter, DB := db }, trace := trace }

/-- The routes that `setRouters` registers on a fresh router. -/
def routeTable : List Route :=
  match App.setRouters (freshState none []) with
  | some { app := { Router := some r, .. }, .. } => r.routes
  | _ => []

/-- The router that `Initialize` leaves in `a.Router`, which `Run` hands to the server. -/
def builtRouter : Router := ⟨routeTable⟩

/-- The template with the pattern of every variable removed: `{id:[0-9]+}` becomes `{id}`,
the way the routing table of the specification writes its placeholders. `skip` tells
whether the text being read is a pattern. -/
def stripPatterns : List Char → Bool → List Char
  | [], _ => []
  | c :: cs, skip =>
    if c = '}' then c :: stripPatterns cs false
    else if skip then stripPatterns cs true
    else if c = ':' then stripPatterns cs true
    else c :: stripPatterns cs false

/-- The routing table of the specification, section 4.1, each row with the handler of its
operation. -/
def specRoutes : List (String × String × HandlerName) :=
  [ ("GET", "/projects", .GetAllProjects),
    ("POST", "/projects", .CreateProject),
    ("GET", "/projects/{title}", .GetProject),
    ("PUT", "/projects/{title}", .UpdateProject),
    ("DELETE", "/projects/{title}", .DeleteProject),
    ("PUT", "/projects/{title}/archive", .ArchiveProject),
    ("DELETE", "/projects/{title}/archive", .RestoreProject),
    ("GET", "/projects/{title}/tasks", .GetAllTasks),
    ("POST", "/projects/{title}/tasks", .CreateTask),
    ("GET", "/projects/{title}/tasks/{id}", .GetTask),
    ("PUT", "/projects/{title}/tasks/{id}", .UpdateTask),
    ("DELETE", "/projects/{title}/tasks/{id}", .DeleteTask),
    ("PUT", "/projects/{title}/tasks/{id}/complete", .CompleteTask),
    ("DELETE", "/projects/{title}/tasks/{id}/complete", .UndoTask) ]

/-- A route as a row of the specification's table: its methods, its template without
patterns, its handler. -/
def Route.row (rt : Route) : Option (List String) × String × HandlerName :=
  (rt.methods, String.mk (stripPatterns rt.path.toList false), rt.handler)

/-- The registrations that `setRouters` performs, as events. -/
def registrationEvents : List Event :=
  match App.setRouters (freshState none []) with
  | some st => st.trace
  | none => []

/-- A text without `/`. -/
def SlashFree (t : String) : Prop := '/' ∉ t.toList

/-- A non-empty text of decimal digits `0`-`9`. -/
def IsDigits (x : String) : Prop := x.toList ≠ [] ∧ ∀ c ∈ x.toList, c.isDigit = true

instance (t : String) : Decidable (SlashFree t) := by unfold SlashFree; infer_instance

instance (x : String) : Decidable (IsDigits x) := by unfold IsDigits; infer_instance

/-! ## Observations on a run of `Initialize` -/

/-- Whether the `n`-th call of `gorm.Open` returns an error. -/
def Env.fails (env : Env) (n : Nat) : Bool := (env.gormOpen n).err.isSome

/-- The `App` before `Initialize`: both fields nil. -/
def App.zero : App := { Router := none, DB := none }

/-- Whether an event is a call of `gorm.Open`. -/
def Event.isOpen : Event → Bool
  | .gormOpen _ _ => true
  | _ => false

/-- Whether an event is a call of `time.Sleep`. -/
def Event.isSleep : Event → Bool
  | .sleep _ => true
  | _ => false

/-- Whether an event is a call of `model.DBMigrate`. -/
def Event.isMigrate : Event → Bool
  | .dbMigrate _ => true
  | _ => false

/-- Whether an event registers a route. -/
def Event.isRegistration : Event → Bool
  | .handleFunc _ _ => true
  | .methods _ => true
  | _ => false

/-- The time an event sleeps, in nanoseconds. -/
def Event.slept : Event → Nat
  | .sleep d => d
  | _ => 0

/-- The total time slept in a trace, in nanoseconds. -/
def sleptTotal (trace : List Event) : Nat := (trace.map Event.slept).sum

/-- The text that an event writes to the log. -/
def Event.logged : Event → Option String
  | .logPrint msg => some msg
  | .logFatalf msg => some msg
  | .logFatal msg => some msg
  | _ => none

/-- The log output of a trace, one entry per call of the logger. -/
def logOutput (trace : List Event) : List String := trace.filterMap Event.logged

/-- The two log entries that `Initialize` writes before it connects. -/
def preamble (config : DBConfig) : List Event :=
  [.logPrint (dbURI config), .logPrint "Trying connection to the database..."]

/-- The events of the `n`-th connection attempt: the call of `gorm.Open` and, when it
fails, a log entry and a sleep of five seconds. -/
def attemptEvents (env : Env) (config : DBConfig) (n : Nat) : List Event :=
  .gormOpen config.Dialect (dbURI config) ::
    (if env.fails n then [.logPrint "Connection failed, retrying...", .sleep (5 * Second)]
     else [])

/-- The events of the connection attempts `1, ..., n`, in order. -/
def attemptsEvents (env : Env) (config : DBConfig) : Nat → List Event
  | 0 => []
  | n + 1 => attemptsEvents env config n ++ attemptEvents env config (n + 1)

/-- The number of failures among the calls `1, ..., n` of `gorm.Open`. -/
def failuresUpTo (env : Env) : Nat → Nat
  | 0 => 0
  | n + 1 => failuresUpTo env n + (if env.fails (n + 1) then 1 else 0)

/-- The attempt at which the retry loop of `Initialize` stops: the first of the attempts
`1, ..., 5` that succeeds, and `5` when none does. -/
def lastAttempt (env : Env) : Nat :=
  if env.fails 1 = false then 1
  else if env.fails 2 = false then 2
  else if env.fails 3 = false then 3
  else if env.fails 4 = false then 4
  else 5

/-! ## Sample inputs -/

/-- An environment whose first two connection attempts fail and whose third succeeds with
handle `3`; `DBMigrate` returns its argument. -/
def envThird : Env :=
  { gormOpen := fun n => if n < 3 then ⟨none, some "connection refused"⟩ else ⟨some n, none⟩,
    DBMigrate := fun db => db }

/-- A configuration for a local PostgreSQL. -/
def sampleConfig : DBConfig :=
  { Dialect := "postgres", Host := "localhost", Port := "5432", DbName := "todo",
    Username := "todo", Password := "secret", SslMode := "disable" }

/-! ## Serving: `path.Clean`, `cleanPath`, `Router.ServeHTTP`, `Run` -/

/-- The backtracking of `path.Clean` on a `..` element: the output buffer (last character
first) loses its last character, and further ones as long as more than `dotdot` characters
are left and the one just dropped is not `/`. -/
def backtrack (dotdot : Nat) : List Char → List Char
  | [] => []
  | c :: out => if out.length > dotdot ∧ c ≠ '/' then backtrack dotdot out else out

/-- The slash that `path.Clean` writes before a real path element. -/
def addSlash (rooted : Bool) (out : List Char) : List Char :=
  if (rooted ∧ out.length ≠ 1) ∨ (¬ rooted ∧ out.length ≠ 0) then '/' :: out else out

/-- The loop of `path.Clean` over the unread part of the path. `mid` tells whether the
loop is copying a real path element; `out` is the output buffer, last character first. -/
def cleanLoop (rooted : Bool) : List Char → Bool → Nat → List Char → List Char
  | [], _, _, out => out
  | [c], mid, _, out =>
    if mid then (if c = '/' then out else c :: out)
    else if c = '/' then out
    else if c = '.' then out
    else c :: addSlash rooted out
  | c :: d :: cs, mid, dotdot, out =>
    if mid then
      if c = '/' then cleanLoop rooted (d :: cs) false dotdot out
      else cleanLoop rooted (d :: cs) true dotdot (c :: out)
    else if c = '/' then
      -- empty path element
      cleanLoop rooted (d :: cs) false dotdot out
    else if c = '.' ∧ d = '/' then
      -- . element
      cleanLoop rooted (d :: cs) false dotdot out
    else if c = '.' ∧ d = '.' ∧ (cs = [] ∨ cs.head? = some '/') then
      -- .. element: remove to last /
      if out.length > dotdot then cleanLoop rooted cs false dotdot (backtrack dotdot out)
      else if rooted then cleanLoop rooted cs false dotdot out
      else
        -- cannot backtrack, but not rooted, so append .. element
        cleanLoop rooted cs false ('.' :: '.' :: addSlash false out).length
          ('.' :: '.' :: addSlash false out)
    else
      -- real path element
      cleanLoop rooted (d :: cs) true dotdot (c :: addSlash rooted out)

/-- The `path.Clean` of the Go library: the shortest path name equivalent to `path`. -/
def pathClean (path : List Char) : List Char :=
  match path with
  | [] => ['.']
  | c :: cs =>
    let out := if c = '/' then cleanLoop true cs false 1 ['/'] else cleanLoop false (c :: cs) false 0 []
    if out = [] then ['.'] else out.reverse

/-- The `cleanPath` of mux: the canonical path for `p`, eliminating `.` and `..` elements;
a trailing slash is kept. -/
def cleanPath (p : List Char) : List Char :=
  if p = [] then ['/']
  else
    let p1 := if p.head? ≠ some '/' then '/' :: p else p
    let np := pathClean p1
    if p1.getLast? = some '/' ∧ np ≠ ['/'] then np ++ ['/'] else np

/-- What `Router.ServeHTTP` does with a request: a redirect to the canonical path, the call
of a handler, or the answer of the framework when no route matches. -/
inductive Served
  | redirect (location : String)
  | handler (h : HandlerName)
  | noHandler
  deriving DecidableEq, Repr

/-- The `Router.ServeHTTP` of mux: a path that is not canonical is answered with a redirect
(301) to its canonical form; otherwise the request goes to the handler of the route that
`Router.Match` finds, if any. -/
def Router.ServeHTTP (r : Router) (method path : String) : Served :=
  if cleanPath path.toList ≠ path.toList then .redirect (String.mk (cleanPath path.toList))
  else
    match r.Match method path with
    | some h => .handler h
    | none => .noHandler

/-- One request that the HTTP server hands to `a.Router`. On a nil router the call fails
and no handler runs. -/
def App.serve (w : ResponseWriter) (r : Request) (s : State) : State :=
  match s.app.Router with
  | none => { s with trace := s.trace ++ [.servePanic w] }
  | some router =>
    match router.ServeHTTP r.Method r.Path with
    | .redirect location => { s with trace := s.trace ++ [.redirect w location] }
    | .handler h => App.method h w r s
    | .noHandler => { s with trace := s.trace ++ [.notFound w] }

/-- Run the app on it's router: `log.Fatal(http.ListenAndServe(host, a.Router))`. The
server handles the requests `reqs` that arrive, in this order, until `ListenAndServe`
returns the error `err`. -/
def App.Run (host : String) (reqs : List (ResponseWriter × Request)) (err : String)
    (s : State) : Outcome :=
  let s1 : State := { s with trace := s.trace ++ [.listenAndServe host] }
  let s2 : State := reqs.foldl (fun st q => App.serve q.1 q.2 st) s1
  { app := s2.app, trace := s2.trace ++ [.logFatal err], status := .exited }

/-- Whether an event belongs to the serving of requests: the listener, a call of a
handler, or an answer of the router. -/
def Event.isServing : Event → Bool
  | .listenAndServe _ => true
  | .handlerCall _ _ _ _ => true
  | .redirect _ _ => true
  | .notFound _ => true
  | .servePanic _ => true
  | _ => false

/-- Whether an event is a call of a function of package `handler`. -/
def Event.isHandlerCall : Event → Bool
  | .handlerCall _ _ _ _ => true
  | _ => false

/-- The path made of the elements `segs`, each preceded by `/`. -/
def pathOf (segs : List (List Char)) : List Char := segs.flatMap (fun seg => '/' :: seg)

/-- A path element that `path.Clean` keeps as it is: not empty, without `/`, and neither
`.` nor `..`. -/
def ProperSegment (seg : List Char) : Prop :=
  seg ≠ [] ∧ '/' ∉ seg ∧ seg ≠ ['.'] ∧ seg ≠ ['.', '.']

/-! ## Lemmas on matching -/

theorem stripLit_eq_some (s cs rest : List Char) :
    stripLit s cs = some rest ↔ cs = s ++ rest := by
  induction s generalizing cs with
  | nil => simp [stripLit, eq_comm]
  | cons a s ih =>
    cases cs with
    | nil => simp [stripLit]
    | cons c cs =>
      by_cases h : a = c
      · subst h; simp [stripLit, ih]
      · simp [stripLit, h]
        intro h2; exact absurd h2.symm h

theorem matchPlus_iff (cls : CharClass) (k : List Char → Bool) (cs : List Char) :
    matchPlus cls k cs = true ↔
      ∃ u rest, u ≠ [] ∧ (∀ c ∈ u, cls.test c = true) ∧ cs = u ++ rest ∧ k rest = true := by
  induction cs with
  | nil =>
    simp only [matchPlus, Bool.false_eq_true, false_iff]
    rintro ⟨u, rest, hne, _, heq, _⟩
    cases u with
    | nil => exact hne rfl
    | cons d u => simp at heq
  | cons c cs ih =>
    simp only [matchPlus, Bool.and_eq_true, Bool.or_eq_true, ih]
    constructor
    · rintro ⟨hc, h | ⟨u, rest, _, hu, rfl, hk⟩⟩
      · exact ⟨[c], cs, by simp, by simpa using hc, rfl, h⟩
      · exact ⟨c :: u, rest, by simp, by
          intro d hd
          rcases List.mem_cons.1 hd with rfl | hd
          · exact hc
          · exact hu d hd, rfl, hk⟩
    · rintro ⟨u, rest, hne, hu, heq, hk⟩
      cases u with
      | nil => exact absurd rfl hne
      | cons d u =>
        simp only [List.cons_append, List.cons.injEq] at heq
        obtain ⟨rfl, rfl⟩ := heq
        refine ⟨hu c (by simp), ?_⟩
        cases u with
        | nil => left; simpa using hk
        | cons e u =>
          right
          exact ⟨e :: u, rest, by simp, fun x hx => hu x (List.mem_cons_of_mem _ hx), rfl, hk⟩

theorem matchPieces_iff (ps : List Piece) (cs : List Char) :
    matchPieces ps cs = true ↔ Matches ps cs := by
  induction ps generalizing cs with
  | nil => simp [matchPieces, Matches]
  | cons p ps ih =>
    cases p with
    | lit s =>
      simp only [matchPieces, Matches]
      constructor
      · intro h
        split at h
        · simp at h
        · rename_i rest hr
          exact ⟨rest, (stripLit_eq_some _ _ _).1 hr, (ih _).1 h⟩
      · rintro ⟨rest, hcs, hm⟩
        rw [(stripLit_eq_some _ _ _).2 hcs]
        exact (ih _).2 hm
    | plus cls =>
      simp only [matchPieces, Matches, matchPlus_iff, ih]
theorem handle_some (m path : String) (f : HandlerName) (r : Router) (db : DBPtr) (tr : List Event) :
    App.handle m path f ⟨⟨some r, db⟩, tr⟩ =
      some ⟨⟨some ((r.HandleFunc path f).Methods [m]), db⟩, tr ++ [.handleFunc path f, .methods [m]]⟩ := rfl

theorem registrationEvents_eq : registrationEvents =
    [ .handleFunc "/projects" .GetAllProjects, .methods ["GET"],
      .handleFunc "/projects" .CreateProject, .methods ["POST"],
      .handleFunc "/projects/{title}" .GetProject, .methods ["GET"],
      .handleFunc "/projects/{title}" .UpdateProject, .methods ["PUT"],
      .handleFunc "/projects/{title}" .DeleteProject, .methods ["DELETE"],
      .handleFunc "/projects/{title}/archive" .ArchiveProject, .methods ["PUT"],
      .handleFunc "/projects/{title}/archive" .RestoreProject, .methods ["DELETE"],
      .handleFunc "/projects/{title}/tasks" .GetAllTasks, .methods ["GET"],
      .handleFunc "/projects/{title}/tasks" .CreateTask, .methods ["POST"],
      .handleFunc "/projects/{title}/tasks/{id:[0-9]+}" .GetTask, .methods ["GET"],
      .handleFunc "/projects/{title}/tasks/{id:[0-9]+}" .UpdateTask, .methods ["PUT"],
      .handleFunc "/projects/{title}/tasks/{id:[0-9]+}" .DeleteTask, .methods ["DELETE"],
      .handleFunc "/projects/{title}/tasks/{id:[0-9]+}/complete" .CompleteTask, .methods ["PUT"],
      .handleFunc "/projects/{title}/tasks/{id:[0-9]+}/complete" .UndoTask, .methods ["DELETE"] ] := by
  decide

theorem routeTable_eq : routeTable =
    [ ⟨"/projects", .GetAllProjects, some ["GET"]⟩,
      ⟨"/projects", .CreateProject, some ["POST"]⟩,
      ⟨"/projects/{title}", .GetProject, some ["GET"]⟩,
      ⟨"/projects/{title}", .UpdateProject, some ["PUT"]⟩,
      ⟨"/projects/{title}", .DeleteProject, some ["DELETE"]⟩,
      ⟨"/projects/{title}/archive", .ArchiveProject, some ["PUT"]⟩,
      ⟨"/projects/{title}/archive", .RestoreProject, some ["DELETE"]⟩,
      ⟨"/projects/{title}/tasks", .GetAllTasks, some ["GET"]⟩,
      ⟨"/projects/{title}/tasks", .CreateTask, some ["POST"]⟩,
      ⟨"/projects/{title}/tasks/{id:[0-9]+}", .GetTask, some ["GET"]⟩,
      ⟨"/projects/{title}/tasks/{id:[0-9]+}", .UpdateTask, some ["PUT"]⟩,
      ⟨"/projects/{title}/tasks/{id:[0-9]+}", .DeleteTask, some ["DELETE"]⟩,
      ⟨"/projects/{title}/tasks/{id:[0-9]+}/complete", .CompleteTask, some ["PUT"]⟩,
      ⟨"/projects/{title}/tasks/{id:[0-9]+}/complete", .UndoTask, some ["DELETE"]⟩ ] := by
  decide

theorem setRouters_fresh (db : DBPtr) (tr : List Event) :
    App.setRouters (freshState db tr) =
      some ⟨⟨some builtRouter, db⟩, tr ++ registrationEvents⟩ := by
  have hr : builtRouter = ⟨routeTable⟩ := rfl
  rw [hr, routeTable_eq, registrationEvents_eq]
  simp only [App.setRouters, App.Get, App.Post, App.Put, App.Delete, freshState, handle_some,
    Option.bind, List.append_assoc]
  rfl
theorem test_ne_slash (cls : CharClass) (c : Char) (h : cls.test c = true) : c ≠ '/' := by
  cases cls with
  | notSlash => simpa [CharClass.test] using h
  | digit =>
    rintro rfl
    revert h
    decide

theorem slashes_append (a b : List Char) : slashes (a ++ b) = slashes a + slashes b := by
  simp [slashes]

theorem slashes_of_class (cls : CharClass) (u : List Char) (h : ∀ c ∈ u, cls.test c = true) :
    slashes u = 0 := by
  unfold slashes
  rw [List.count_eq_zero]
  intro hm
  exact test_ne_slash cls _ (h _ hm) rfl

theorem Matches_slashes (ps : List Piece) (cs : List Char) (h : Matches ps cs) :
    slashes cs = pieceSlashes ps := by
  induction ps generalizing cs with
  | nil => simp [Matches] at h; subst h; rfl
  | cons p ps ih =>
    cases p with
    | lit s =>
      obtain ⟨rest, rfl, hm⟩ := h
      simp [pieceSlashes, slashes_append, ih rest hm]
    | plus cls =>
      obtain ⟨u, rest, _, hu, rfl, hm⟩ := h
      simp [pieceSlashes, slashes_append, ih rest hm, slashes_of_class cls u hu]

theorem signature_of_Match (rt : Route) (m p : String) (sg : String × Nat)
    (hs : rt.signature = some sg) (h : rt.Match m p = true) :
    sg = (m, slashes p.toList) := by
  unfold Route.signature at hs
  unfold Route.Match Route.matchesPath Route.matchesMethod at h
  split at hs
  · rename_i m' ps hm hc
    rw [hm, hc] at h
    simp only [Bool.and_eq_true] at h
    obtain ⟨h1, h2⟩ := h
    have h3 := Matches_slashes ps _ ((matchPieces_iff _ _).1 h1)
    simp at h2
    simp at hs
    rw [← hs, h2, h3]
  · simp at hs

theorem filter_length_le_one {α β : Type} (f : α → β) (P : α → Bool) (v : β) (l : List α)
    (hp : l.Pairwise (fun a b => f a ≠ f b)) (hv : ∀ a ∈ l, P a = true → f a = v) :
    (l.filter P).length ≤ 1 := by
  induction l with
  | nil => simp
  | cons a l ih =>
    rw [List.pairwise_cons] at hp
    have ih2 := ih hp.2 (fun b hb => hv b (List.mem_cons_of_mem _ hb))
    by_cases ha : P a = true
    · have hnone : l.filter P = [] := by
        rw [List.filter_eq_nil_iff]
        intro b hb hpb
        have e1 := hv a (List.mem_cons_self _ _) ha
        have e2 := hv b (List.mem_cons_of_mem _ hb) hpb
        exact hp.1 b hb (e1.trans e2.symm)
      simp [List.filter_cons, ha, hnone]
    · simp [List.filter_cons, ha, ih2]

theorem routeTable_signatures :
    routeTable.Pairwise (fun a b => a.signature ≠ b.signature) ∧
      ∀ rt ∈ routeTable, rt.signature.isSome = true := by
  decide

theorem append_slash_inj (t u r r' : List Char) (ht : '/' ∉ t) (hu : '/' ∉ u)
    (h : t ++ '/' :: r = u ++ '/' :: r') : t = u ∧ r = r' := by
  induction t generalizing u with
  | nil =>
    cases u with
    | nil => simpa using h
    | cons d u =>
      simp only [List.nil_append, List.cons_append, List.cons.injEq] at h
      exact absurd (h.1 ▸ List.mem_cons_self _ _) hu
  | cons c t ih =>
    cases u with
    | nil =>
      simp only [List.nil_append, List.cons_append, List.cons.injEq] at h
      exact absurd (h.1 ▸ List.mem_cons_self _ _) ht
    | cons d u =>
      simp only [List.cons_append, List.cons.injEq] at h
      obtain ⟨rfl, h2⟩ := h
      have := ih u (fun hm => ht (List.mem_cons_of_mem _ hm))
        (fun hm => hu (List.mem_cons_of_mem _ hm)) h2
      exact ⟨by rw [this.1], this.2⟩

theorem notSlash_all (u : List Char) : (∀ c ∈ u, CharClass.notSlash.test c = true) ↔ '/' ∉ u := by
  constructor
  · intro h hm
    exact test_ne_slash _ _ (h _ hm) rfl
  · intro h c hc
    simp only [CharClass.test, bne_iff_ne, ne_eq]
    rintro rfl
    exact h hc

/-- The language of `/projects/{title}`. -/
theorem matches_project (cs : List Char) :
    Matches [.lit "/projects/".toList, .plus .notSlash, .lit []] cs ↔
      ∃ t, t ≠ [] ∧ '/' ∉ t ∧ cs = "/projects/".toList ++ t := by
  simp only [Matches, notSlash_all]
  constructor
  · rintro ⟨_, rfl, u, _, hne, hu, rfl, _, rfl, rfl⟩
    exact ⟨u, hne, hu, by simp⟩
  · rintro ⟨t, hne, ht, rfl⟩
    exact ⟨_, rfl, t, [], hne, ht, by simp, [], rfl, rfl⟩

/-- The language of `/projects/{title}/archive` and `/projects/{title}/tasks`. -/
theorem matches_sub (sfx cs : List Char) :
    Matches [.lit "/projects/".toList, .plus .notSlash, .lit sfx] cs ↔
      ∃ t, t ≠ [] ∧ '/' ∉ t ∧ cs = "/projects/".toList ++ t ++ sfx := by
  simp only [Matches, notSlash_all]
  constructor
  · rintro ⟨_, rfl, u, _, hne, hu, rfl, _, rfl, rfl⟩
    exact ⟨u, hne, hu, by simp⟩
  · rintro ⟨t, hne, ht, rfl⟩
    exact ⟨_, by simp, t, sfx, hne, ht, rfl, [], by simp, rfl⟩

/-- The language of `/projects/{title}/tasks/{id:[0-9]+}` followed by the literal `sfx`. -/
theorem matches_task (sfx cs : List Char) :
    Matches [.lit "/projects/".toList, .plus .notSlash, .lit "/tasks/".toList, .plus .digit,
        .lit sfx] cs ↔
      ∃ t i, t ≠ [] ∧ '/' ∉ t ∧ i ≠ [] ∧ (∀ c ∈ i, c.isDigit = true) ∧
        cs = "/projects/".toList ++ t ++ "/tasks/".toList ++ i ++ sfx := by
  simp only [Matches, notSlash_all]
  constructor
  · rintro ⟨_, rfl, u, _, hne, hu, rfl, _, rfl, v, _, hv, hd, rfl, _, rfl, rfl⟩
    exact ⟨u, v, hne, hu, hv, hd, by simp⟩
  · rintro ⟨t, i, hne, ht, hi, hd, rfl⟩
    exact ⟨_, by simp, t, _, hne, ht, rfl, _, rfl, i, sfx, hi, hd, rfl, [], by simp, rfl⟩
theorem toList_append (a b : String) : (a ++ b).toList = a.toList ++ b.toList := rfl

theorem matchesPath_iff (rt : Route) (ps : List Piece) (p : String)
    (hc : compileTemplate rt.path = some ps) :
    rt.matchesPath p = true ↔ Matches ps p.toList := by
  unfold Route.matchesPath
  rw [hc]
  exact matchPieces_iff ps p.toList

theorem compile_project : compileTemplate "/projects/{title}" =
    some [.lit "/projects/".toList, .plus .notSlash, .lit []] := rfl

theorem compile_archive : compileTemplate "/projects/{title}/archive" =
    some [.lit "/projects/".toList, .plus .notSlash, .lit "/archive".toList] := rfl

theorem compile_tasks : compileTemplate "/projects/{title}/tasks" =
    some [.lit "/projects/".toList, .plus .notSlash, .lit "/tasks".toList] := rfl

theorem compile_task : compileTemplate "/projects/{title}/tasks/{id:[0-9]+}" =
    some [.lit "/projects/".toList, .plus .notSlash, .lit "/tasks/".toList, .plus .digit,
      .lit []] := rfl

theorem compile_complete : compileTemplate "/projects/{title}/tasks/{id:[0-9]+}/complete" =
    some [.lit "/projects/".toList, .plus .notSlash, .lit "/tasks/".toList, .plus .digit,
      .lit "/complete".toList] := rfl

/-- A route for `/projects/{title}` matches `/projects/t` exactly for the non-empty
slash-free `t`. -/
theorem matchesPath_project (rt : Route) (t : String) (hp : rt.path = "/projects/{title}") :
    rt.matchesPath ("/projects/" ++ t) = true ↔ t.toList ≠ [] ∧ SlashFree t := by
  rw [matchesPath_iff rt _ _ (hp ▸ compile_project), matches_project]
  constructor
  · rintro ⟨u, hne, hu, h⟩
    simp only [toList_append, List.append_cancel_left_eq] at h
    unfold SlashFree
    rw [h]; exact ⟨hne, hu⟩
  · rintro ⟨hne, ht⟩
    exact ⟨t.toList, hne, ht, rfl⟩

/-- A route for `/projects/{title}/tasks/{id:[0-9]+}` matches `/projects/t/tasks/x`, `t`
non-empty and slash-free, exactly when `x` is a non-empty text of digits. -/
theorem matchesPath_task (rt : Route) (t x : String)
    (hp : rt.path = "/projects/{title}/tasks/{id:[0-9]+}")
    (hne : t.toList ≠ []) (ht : SlashFree t) :
    rt.matchesPath ("/projects/" ++ t ++ "/tasks/" ++ x) = true ↔ IsDigits x := by
  rw [matchesPath_iff rt _ _ (hp ▸ compile_task), matches_task]
  constructor
  · rintro ⟨u, i, _, hu, hi, hd, h⟩
    simp only [toList_append, List.append_assoc, List.append_cancel_left_eq,
      List.append_nil] at h
    have h2 := append_slash_inj t.toList u ("tasks/".toList ++ x.toList)
      ("tasks/".toList ++ i) ht hu h
    have h3 : x.toList = i := List.append_cancel_left h2.2
    rw [IsDigits, h3]; exact ⟨hi, hd⟩
  · rintro ⟨hi, hd⟩
    exact ⟨t.toList, x.toList, hne, ht, hi, hd, by simp [toList_append]⟩

/-- A route for `/projects/{title}/tasks/{id:[0-9]+}/complete` matches
`/projects/t/tasks/x/complete`, `t` non-empty and slash-free, exactly when `x` is a
non-empty text of digits. -/
theorem matchesPath_complete (rt : Route) (t x : String)
    (hp : rt.path = "/projects/{title}/tasks/{id:[0-9]+}/complete")
    (hne : t.toList ≠ []) (ht : SlashFree t) :
    rt.matchesPath ("/projects/" ++ t ++ "/tasks/" ++ x ++ "/complete") = true ↔ IsDigits x := by
  rw [matchesPath_iff rt _ _ (hp ▸ compile_complete), matches_task]
  constructor
  · rintro ⟨u, i, _, hu, hi, hd, h⟩
    simp only [toList_append, List.append_assoc, List.append_cancel_left_eq] at h
    have h2 := append_slash_inj t.toList u ("tasks/".toList ++ (x.toList ++ "/complete".toList))
      ("tasks/".toList ++ (i ++ "/complete".toList)) ht hu h
    have h3 : x.toList = i := List.append_cancel_right (List.append_cancel_left h2.2)
    rw [IsDigits, h3]; exact ⟨hi, hd⟩
  · rintro ⟨hi, hd⟩
    exact ⟨t.toList, x.toList, hne, ht, hi, hd, by simp [toList_append]⟩
theorem eq_of_pairwise_ne {α β : Type} (f : α → β) (l : List α)
    (hp : l.Pairwise (fun a b => f a ≠ f b)) (a b : α) (ha : a ∈ l) (hb : b ∈ l)
    (h : f a = f b) : a = b := by
  induction l with
  | nil => simp at ha
  | cons c l ih =>
    rw [List.pairwise_cons] at hp
    rcases List.mem_cons.1 ha with rfl | ha2 <;> rcases List.mem_cons.1 hb with rfl | hb2
    · rfl
    · exact absurd h (hp.1 b hb2)
    · exact absurd h.symm (hp.1 a ha2)
    · exact ih hp.2 ha2 hb2

/-- C2: for every method and path, at most one route of the table that `setRouters`
registers matches the request: the matching routes are at most one entry of the table, and
any two routes of the table that match the same request are the same route. -/
theorem at_most_one_route_matches (m p : String) :
    (builtRouter.routes.filter (fun rt => rt.Match m p)).length ≤ 1 ∧
    (∀ r1 ∈ builtRouter.routes, ∀ r2 ∈ builtRouter.routes,
      r1.Match m p = true → r2.Match m p = true → r1 = r2) ∧
    builtRouter.routes.Nodup := by
  have key : ∀ rt ∈ routeTable, rt.Match m p = true →
      rt.signature = some (m, slashes p.toList) := by
    intro rt hrt hm
    obtain ⟨sg, hsg⟩ := Option.isSome_iff_exists.1 (routeTable_signatures.2 rt hrt)
    rw [hsg, signature_of_Match rt m p sg hsg hm]
  refine ⟨?_, ?_, by decide⟩
  · show (routeTable.filter (fun rt => rt.Match m p)).length ≤ 1
    exact filter_length_le_one Route.signature _ (some (m, slashes p.toList)) _
      routeTable_signatures.1 key
  · intro r1 h1 r2 h2 m1 m2
    exact eq_of_pairwise_ne Route.signature routeTable routeTable_signatures.1 r1 r2 h1 h2
      ((key r1 h1 m1).trans (key r2 h2 m2).symm)

/-- A route of the table that matches a request is the one the router dispatches to. -/
theorem dispatch_of_match (rt : Route) (m p : String) (hrt : rt ∈ routeTable)
    (h : rt.Match m p = true) : Router.Match builtRouter m p = some rt.handler := by
  unfold Router.Match
  show (routeTable.find? (fun r => r.Match m p)).map (fun r => r.handler) = some rt.handler
  cases hf : routeTable.find? (fun r => r.Match m p) with
  | none =>
    rw [List.find?_eq_none] at hf
    exact absurd h (by simpa using hf rt hrt)
  | some r =>
    have hr : r ∈ routeTable := List.mem_of_find?_eq_some hf
    have hm : r.Match m p = true := by simpa using List.find?_some hf
    obtain ⟨s1, hs1⟩ := Option.isSome_iff_exists.1 (routeTable_signatures.2 r hr)
    obtain ⟨s2, hs2⟩ := Option.isSome_iff_exists.1 (routeTable_signatures.2 rt hrt)
    have e : r.signature = rt.signature := by
      rw [hs1, hs2, signature_of_Match r m p s1 hs1 hm, signature_of_Match rt m p s2 hs2 h]
    rw [eq_of_pairwise_ne Route.signature routeTable routeTable_signatures.1 r rt hr hrt e]
    rfl

/-- The router dispatches to a handler only through a route of the table that matches. -/
theorem match_of_dispatch (m p : String) (h : HandlerName)
    (hd : Router.Match builtRouter m p = some h) :
    ∃ rt ∈ routeTable, rt.Match m p = true ∧ rt.handler = h := by
  unfold Router.Match at hd
  change (routeTable.find? (fun r => r.Match m p)).map (fun r => r.handler) = some h at hd
  cases hf : routeTable.find? (fun r => r.Match m p) with
  | none => rw [hf] at hd; simp at hd
  | some r =>
    rw [hf] at hd
    exact ⟨r, List.mem_of_find?_eq_some hf, by simpa using List.find?_some hf, by simpa using hd⟩

theorem dispatch_none (m p : String) (h : ∀ rt ∈ routeTable, rt.Match m p = false) :
    Router.Match builtRouter m p = none := by
  unfold Router.Match
  show (routeTable.find? (fun r => r.Match m p)).map (fun r => r.handler) = none
  have : routeTable.find? (fun r => r.Match m p) = none := by
    rw [List.find?_eq_none]
    intro r hr
    simp [h r hr]
  rw [this]; rfl

theorem toList_ne_nil (t : String) (h : t ≠ "") : t.toList ≠ [] := by
  intro hl
  apply h
  cases t
  simp only [String.toList] at hl
  subst hl
  rfl

theorem Match_of_path (rt : Route) (m p : String) (hm : rt.methods = some [m])
    (h : rt.matchesPath p = true) : rt.Match m p = true := by
  simp [Route.Match, Route.matchesMethod, hm, h]

theorem path_of_Match (rt : Route) (m p : String) (h : rt.Match m p = true) :
    rt.matchesPath p = true := by
  simp only [Route.Match, Bool.and_eq_true] at h
  exact h.1

/-- The templates of the routes, by handler. -/
theorem routeTable_paths : ∀ rt ∈ routeTable,
    (rt.handler ∈ [HandlerName.GetProject, .UpdateProject, .DeleteProject] →
      rt.path = "/projects/{title}") ∧
    (rt.handler ∈ [HandlerName.GetTask, .UpdateTask, .DeleteTask] →
      rt.path = "/projects/{title}/tasks/{id:[0-9]+}") ∧
    (rt.handler ∈ [HandlerName.CompleteTask, .UndoTask] →
      rt.path = "/projects/{title}/tasks/{id:[0-9]+}/complete") := by
  decide

/-- The routes whose templates hold four and five `/`. -/
theorem routeTable_deep : ∀ rt ∈ routeTable,
    (rt.signature.map Prod.snd = some 4 → rt.path = "/projects/{title}/tasks/{id:[0-9]+}") ∧
    (rt.signature.map Prod.snd = some 5 →
      rt.path = "/projects/{title}/tasks/{id:[0-9]+}/complete") := by
  decide
theorem matchesPath_archive (rt : Route) (t : String) (hp : rt.path = "/projects/{title}/archive")
    (hne : t.toList ≠ []) (ht : SlashFree t) :
    rt.matchesPath ("/projects/" ++ t ++ "/archive") = true := by
  rw [matchesPath_iff rt _ _ (hp ▸ compile_archive), matches_sub]
  exact ⟨t.toList, hne, ht, rfl⟩

theorem no_match_of_not_digits (t x m : String) (hne : t.toList ≠ []) (ht : SlashFree t)
    (hsx : SlashFree x) (hx : ¬ IsDigits x) :
    (∀ rt ∈ routeTable, rt.Match m ("/projects/" ++ t ++ "/tasks/" ++ x) = false) ∧
    (∀ rt ∈ routeTable,
      rt.Match m ("/projects/" ++ t ++ "/tasks/" ++ x ++ "/complete") = false) := by
  have c0 : ∀ s : String, '/' ∉ s.toList → slashes s.toList = 0 := by
    intro s hs
    unfold slashes
    exact List.count_eq_zero.2 hs
  constructor
  · intro rt hrt
    by_contra hm
    rw [Bool.not_eq_false] at hm
    obtain ⟨sg, hsg⟩ := Option.isSome_iff_exists.1 (routeTable_signatures.2 rt hrt)
    have hs := signature_of_Match rt m _ sg hsg hm
    have hcount : slashes ("/projects/" ++ t ++ "/tasks/" ++ x).toList = 4 := by
      simp only [toList_append, slashes_append, c0 t ht, c0 x hsx]
      rfl
    have hp := (routeTable_deep rt hrt).1 (by rw [hsg, hs, hcount]; rfl)
    exact hx ((matchesPath_task rt t x hp hne ht).1 (path_of_Match rt m _ hm))
  · intro rt hrt
    by_contra hm
    rw [Bool.not_eq_false] at hm
    obtain ⟨sg, hsg⟩ := Option.isSome_iff_exists.1 (routeTable_signatures.2 rt hrt)
    have hs := signature_of_Match rt m _ sg hsg hm
    have hcount : slashes ("/projects/" ++ t ++ "/tasks/" ++ x ++ "/complete").toList = 5 := by
      simp only [toList_append, slashes_append, c0 t ht, c0 x hsx]
      rfl
    have hp := (routeTable_deep rt hrt).2 (by rw [hsg, hs, hcount]; rfl)
    exact hx ((matchesPath_complete rt t x hp hne ht).1 (path_of_Match rt m _ hm))

/-- C1: on a fresh router `setRouters` succeeds and leaves exactly the fourteen routes of
the specification's routing table, in its order, each with the handler of its row and with
exactly one method; the templates are those of the table with the pattern `[0-9]+` on `id`;
the database handle is untouched. -/
theorem setRouters_registers_spec_table (db : DBPtr) (trace : List Event) :
    (∃ st, App.setRouters (freshState db trace) = some st ∧
      st.app.Router = some ⟨routeTable⟩ ∧ st.app.DB = db) ∧
    routeTable.length = 14 ∧
    routeTable.map Route.row = specRoutes.map (fun row => (some [row.1], row.2.1, row.2.2)) ∧
    routeTable =
      [ ⟨"/projects", .GetAllProjects, some ["GET"]⟩,
        ⟨"/projects", .CreateProject, some ["POST"]⟩,
        ⟨"/projects/{title}", .GetProject, some ["GET"]⟩,
        ⟨"/projects/{title}", .UpdateProject, some ["PUT"]⟩,
        ⟨"/projects/{title}", .DeleteProject, some ["DELETE"]⟩,
        ⟨"/projects/{title}/archive", .ArchiveProject, some ["PUT"]⟩,
        ⟨"/projects/{title}/archive", .RestoreProject, some ["DELETE"]⟩,
        ⟨"/projects/{title}/tasks", .GetAllTasks, some ["GET"]⟩,
        ⟨"/projects/{title}/tasks", .CreateTask, some ["POST"]⟩,
        ⟨"/projects/{title}/tasks/{id:[0-9]+}", .GetTask, some ["GET"]⟩,
        ⟨"/projects/{title}/tasks/{id:[0-9]+}", .UpdateTask, some ["PUT"]⟩,
        ⟨"/projects/{title}/tasks/{id:[0-9]+}", .DeleteTask, some ["DELETE"]⟩,
        ⟨"/projects/{title}/tasks/{id:[0-9]+}/complete", .CompleteTask, some ["PUT"]⟩,
        ⟨"/projects/{title}/tasks/{id:[0-9]+}/complete", .UndoTask, some ["DELETE"]⟩ ] ∧
    (∀ rt ∈ routeTable, rt.methods.map List.length = some 1) ∧
    (∀ rt ∈ routeTable, ∀ m p, rt.Match m p = true → rt.methods = some [m]) := by
  refine ⟨⟨_, setRouters_fresh db trace, rfl, rfl⟩, by decide, by decide, routeTable_eq,
    by decide, ?_⟩
  intro rt hrt m p h
  obtain ⟨sg, hsg⟩ := Option.isSome_iff_exists.1 (routeTable_signatures.2 rt hrt)
  have hs := signature_of_Match rt m p sg hsg h
  subst hs
  unfold Route.signature at hsg
  split at hsg
  · rename_i m2 ps hm hc
    simp only [Option.some.injEq, Prod.mk.injEq] at hsg
    rw [hm, hsg.1]
  · simp at hsg
theorem tryDoLoop_succ {σ : Type} (fn : Nat → σ → (Bool × GoError) × σ) (left attempt : Nat)
    (s : σ) :
    tryDoLoop fn (left + 1) attempt s =
      if (!(fn attempt s).1.1 || (fn attempt s).1.2.isNone) = true then
        ((fn attempt s).1.2, (fn attempt s).2)
      else tryDoLoop fn left (attempt + 1) (fn attempt s).2 := rfl

theorem connect_ok (env : Env) (config : DBConfig) (attempt : Nat) (s : ConnState)
    (h : env.fails (s.opens + 1) = false) :
    connect env config attempt s =
      ((decide (attempt < 5), none),
        { db := (env.gormOpen (s.opens + 1)).db, opens := s.opens + 1,
          trace := s.trace ++ attemptEvents env config (s.opens + 1) }) := by
  have h2 : (env.gormOpen (s.opens + 1)).err = none := by
    simpa [Env.fails] using h
  simp [connect, attemptEvents, h, h2]

theorem connect_fail (env : Env) (config : DBConfig) (attempt : Nat) (s : ConnState)
    (h : env.fails (s.opens + 1) = true) :
    connect env config attempt s =
      ((decide (attempt < 5), (env.gormOpen (s.opens + 1)).err),
        { db := (env.gormOpen (s.opens + 1)).db, opens := s.opens + 1,
          trace := s.trace ++ attemptEvents env config (s.opens + 1) }) := by
  have h2 : (env.gormOpen (s.opens + 1)).err.isSome = true := h
  simp [connect, attemptEvents, h, h2]

/-- One round of the retry loop on a failing attempt that is not the fifth. -/
theorem loop_retry (env : Env) (config : DBConfig) (left attempt : Nat) (s : ConnState)
    (h : env.fails (s.opens + 1) = true) (ha : attempt < 5) :
    tryDoLoop (connect env config) (left + 1) attempt s =
      tryDoLoop (connect env config) left (attempt + 1)
        { db := (env.gormOpen (s.opens + 1)).db, opens := s.opens + 1,
          trace := s.trace ++ attemptEvents env config (s.opens + 1) } := by
  have h2 : (env.gormOpen (s.opens + 1)).err.isSome = true := h
  rw [tryDoLoop_succ, connect_fail env config attempt s h]
  obtain ⟨e, he⟩ := Option.isSome_iff_exists.1 h2
  simp [ha, he]

/-- The round of the retry loop that ends it: a successful attempt, or the fifth. -/
theorem loop_stop (env : Env) (config : DBConfig) (left attempt : Nat) (s : ConnState)
    (h : env.fails (s.opens + 1) = false ∨ ¬ attempt < 5) :
    tryDoLoop (connect env config) (left + 1) attempt s =
      ((env.gormOpen (s.opens + 1)).err,
        { db := (env.gormOpen (s.opens + 1)).db, opens := s.opens + 1,
          trace := s.trace ++ attemptEvents env config (s.opens + 1) }) := by
  rw [tryDoLoop_succ]
  cases hf : env.fails (s.opens + 1) with
  | false =>
    have h2 : (env.gormOpen (s.opens + 1)).err = none := by
      simpa [Env.fails] using hf
    rw [connect_ok env config attempt s hf]
    simp [h2]
  | true =>
    rw [connect_fail env config attempt s hf]
    have ha : ¬ attempt < 5 := by
      rcases h with h | h
      · rw [hf] at h; cases h
      · exact h
    simp [ha]

theorem tryDo_connect (env : Env) (config : DBConfig) (t0 : List Event) :
    tryDo (connect env config) { db := none, opens := 0, trace := t0 } =
      ((env.gormOpen (lastAttempt env)).err,
        { db := (env.gormOpen (lastAttempt env)).db, opens := lastAttempt env,
          trace := t0 ++ attemptsEvents env config (lastAttempt env) }) := by
  unfold tryDo MaxRetries lastAttempt
  cases h1 : env.fails 1
  · rw [loop_stop env config _ _ _ (Or.inl h1)]
    simp [attemptsEvents]
  rw [loop_retry env config _ _ _ h1 (by decide)]
  cases h2 : env.fails 2
  · rw [loop_stop env config _ _ _ (Or.inl h2)]
    simp [attemptsEvents]
  rw [loop_retry env config _ _ _ h2 (by decide)]
  cases h3 : env.fails 3
  · rw [loop_stop env config _ _ _ (Or.inl h3)]
    simp [attemptsEvents]
  rw [loop_retry env config _ _ _ h3 (by decide)]
  cases h4 : env.fails 4
  · rw [loop_stop env config _ _ _ (Or.inl h4)]
    simp [attemptsEvents]
  rw [loop_retry env config _ _ _ h4 (by decide)]
  rw [loop_stop env config _ _ _ (Or.inr (by decide))]
  simp [attemptsEvents]
theorem lastAttempt_bounds (env : Env) : 1 ≤ lastAttempt env ∧ lastAttempt env ≤ 5 := by
  unfold lastAttempt
  split_ifs <;> omega

theorem lastAttempt_stops (env : Env) :
    env.fails (lastAttempt env) = false ∨ lastAttempt env = 5 := by
  unfold lastAttempt
  split_ifs <;> simp_all

theorem lastAttempt_before (env : Env) (j : Nat) (h1 : 1 ≤ j) (h2 : j < lastAttempt env) :
    env.fails j = true := by
  unfold lastAttempt at h2
  have hj : j = 1 ∨ j = 2 ∨ j = 3 ∨ j = 4 ∨ 5 ≤ j := by omega
  split_ifs at h2 <;> rcases hj with rfl | rfl | rfl | rfl | h <;> simp_all <;> omega

/-- The retry loop stops at the first attempt that succeeds. -/
theorem lastAttempt_eq_first (env : Env) (k : Nat) (h1 : 1 ≤ k) (h5 : k ≤ 5)
    (hk : env.fails k = false) (hb : ∀ j, 1 ≤ j → j < k → env.fails j = true) :
    lastAttempt env = k := by
  have hb1 := lastAttempt_bounds env
  rcases Nat.lt_trichotomy (lastAttempt env) k with h | h | h
  · rcases lastAttempt_stops env with hs | hs
    · have := hb _ hb1.1 h
      rw [hs] at this; cases this
    · omega
  · exact h
  · have := lastAttempt_before env k h1 h
    rw [hk] at this; cases this

/-- The retry loop makes five attempts when all of them fail. -/
theorem lastAttempt_eq_five (env : Env) (h : ∀ k, 1 ≤ k → k ≤ 5 → env.fails k = true) :
    lastAttempt env = 5 := by
  rcases lastAttempt_stops env with hs | hs
  · have hb := lastAttempt_bounds env
    have := h _ hb.1 hb.2
    rw [hs] at this; cases this
  · exact hs

theorem Initialize_returned (env : Env) (config : DBConfig) (a : App)
    (h : env.fails (lastAttempt env) = false) :
    App.Initialize env config a =
      { app := { Router := some builtRouter,
                 DB := env.DBMigrate (env.gormOpen (lastAttempt env)).db },
        trace := preamble config ++ attemptsEvents env config (lastAttempt env) ++
          [.dbMigrate (env.gormOpen (lastAttempt env)).db, .newRouter] ++ registrationEvents,
        status := .returned } := by
  have h2 : (env.gormOpen (lastAttempt env)).err = none := by
    simpa [Env.fails] using h
  have h3 := tryDo_connect env config (preamble config)
  have h4 := setRouters_fresh (env.DBMigrate (env.gormOpen (lastAttempt env)).db)
    (preamble config ++ attemptsEvents env config (lastAttempt env) ++
      [.dbMigrate (env.gormOpen (lastAttempt env)).db, .newRouter])
  unfold freshState at h4
  unfold App.Initialize
  simp only [preamble] at h3 h4 ⊢
  simp only [h3, h2, h4]

theorem Initialize_exited (env : Env) (config : DBConfig) (a : App)
    (h : env.fails (lastAttempt env) = true) :
    ∃ e, (env.gormOpen (lastAttempt env)).err = some e ∧
      App.Initialize env config a =
        { app := a,
          trace := preamble config ++ attemptsEvents env config (lastAttempt env) ++
            [.logFatalf ("Could not connect to the database. " ++ e)],
          status := .exited } := by
  obtain ⟨e, he⟩ := Option.isSome_iff_exists.1 (show (env.gormOpen (lastAttempt env)).err.isSome = true from h)
  refine ⟨e, he, ?_⟩
  have h3 := tryDo_connect env config (preamble config)
  unfold App.Initialize
  simp only [preamble] at h3 ⊢
  simp only [h3, he]
theorem count_attemptsEvents (env : Env) (config : DBConfig) (n : Nat) :
    (attemptsEvents env config n).countP Event.isOpen = n ∧
    (attemptsEvents env config n).countP Event.isSleep = failuresUpTo env n ∧
    sleptTotal (attemptsEvents env config n) = failuresUpTo env n * (5 * Second) ∧
    (attemptsEvents env config n).countP Event.isMigrate = 0 ∧
    (attemptsEvents env config n).countP Event.isRegistration = 0 ∧
    (∀ ev ∈ attemptsEvents env config n, ev.isSleep = true → ev = .sleep (5 * Second)) := by
  induction n with
  | zero => simp [attemptsEvents, failuresUpTo, sleptTotal]
  | succ n ih =>
    obtain ⟨i1, i2, i3, i4, i5, i6⟩ := ih
    unfold sleptTotal at i3 ⊢
    cases hf : env.fails (n + 1) <;>
      simp [attemptsEvents, attemptEvents, failuresUpTo, hf, List.countP_append,
        List.countP_cons, Event.isOpen, Event.isSleep, Event.isMigrate, Event.isRegistration,
        Event.slept, i1, i2, i3, i4, i5, Nat.add_mul]
    · rintro ev (h | rfl) hs
      · exact i6 ev h hs
      · cases hs
    · rintro ev (h | rfl | rfl | rfl) hs
      · exact i6 ev h hs
      · cases hs
      · cases hs
      · rfl

theorem count_fixed (config : DBConfig) :
    (preamble config).countP Event.isOpen = 0 ∧ (preamble config).countP Event.isSleep = 0 ∧
    sleptTotal (preamble config) = 0 ∧
    (preamble config).countP Event.isMigrate = 0 ∧
    (preamble config).countP Event.isRegistration = 0 ∧
    registrationEvents.countP Event.isOpen = 0 ∧ registrationEvents.countP Event.isSleep = 0 ∧
    sleptTotal registrationEvents = 0 ∧
    registrationEvents.countP Event.isMigrate = 0 ∧
    registrationEvents.countP Event.isRegistration = 28 := by
  refine ⟨rfl, rfl, rfl, rfl, rfl, ?_, ?_, ?_, ?_, ?_⟩ <;> decide
/-- The number of calls of `gorm.Open` in a run of `Initialize`, and how the run ends. -/
theorem Initialize_opens (env : Env) (config : DBConfig) (a : App) :
    (App.Initialize env config a).trace.countP Event.isOpen = lastAttempt env ∧
    ((App.Initialize env config a).status = .exited ↔ env.fails (lastAttempt env) = true) ∧
    ((App.Initialize env config a).status = .returned ↔ env.fails (lastAttempt env) = false) := by
  have c1 := count_attemptsEvents env config (lastAttempt env)
  have c2 := count_fixed config
  cases h : env.fails (lastAttempt env)
  · rw [Initialize_returned env config a h]
    simp [List.countP_append, c1.1, c2.1, c2.2.2.2.2.2.1, Event.isOpen]
  · obtain ⟨e, _, he⟩ := Initialize_exited env config a h
    rw [he]
    simp [List.countP_append, c1.1, c2.1, Event.isOpen]

/-- C4: whatever the calls of `gorm.Open` return, `Initialize` calls it at least once and
at most five times, stops at the first call that succeeds, and calls it exactly five times
when the first five calls all fail; the run ends by returning or by `log.Fatalf`. -/
theorem connection_attempts_bounded (env : Env) (config : DBConfig) (a : App) :
    1 ≤ (App.Initialize env config a).trace.countP Event.isOpen ∧
    (App.Initialize env config a).trace.countP Event.isOpen ≤ 5 ∧
    (∀ k, 1 ≤ k → k ≤ 5 → env.fails k = false → (∀ j, 1 ≤ j → j < k → env.fails j = true) →
      (App.Initialize env config a).trace.countP Event.isOpen = k) ∧
    ((∀ k, 1 ≤ k → k ≤ 5 → env.fails k = true) →
      (App.Initialize env config a).trace.countP Event.isOpen = 5) ∧
    ((App.Initialize env config a).status = .returned ∨
      (App.Initialize env config a).status = .exited) := by
  obtain ⟨h1, h2, h3⟩ := Initialize_opens env config a
  have hb := lastAttempt_bounds env
  rw [h1]
  refine ⟨hb.1, hb.2, ?_, lastAttempt_eq_five env, ?_⟩
  · intro k k1 k5 hk hj
    exact lastAttempt_eq_first env k k1 k5 hk hj
  · cases h : env.fails (lastAttempt env)
    · exact Or.inl (h3.2 h)
    · exact Or.inr (h2.2 h)

/-- C5: `Initialize` ends in `log.Fatalf` exactly when each of the five connection attempts
fails; the message then carries the error of the fifth attempt, `DBMigrate` is not called,
no route is registered and the `App` is left as it was (nil fields stay nil). When attempt
`k` is the first to succeed, `Initialize` returns and works with the handle of attempt `k`. -/
theorem fatal_iff_all_attempts_fail (env : Env) (config : DBConfig) (a : App) :
    ((App.Initialize env config a).status = .exited ↔
      ∀ k, 1 ≤ k → k ≤ 5 → env.fails k = true) ∧
    ((App.Initialize env config a).status = .exited →
      (∃ e, (env.gormOpen 5).err = some e ∧
        (App.Initialize env config a).trace.getLast? =
          some (.logFatalf ("Could not connect to the database. " ++ e)) ∧
        (App.Initialize env config a).trace.countP
          (fun ev => ev matches .logFatalf _) = 1) ∧
      (App.Initialize env config a).trace.countP Event.isMigrate = 0 ∧
      (App.Initialize env config a).trace.countP Event.isRegistration = 0 ∧
      (App.Initialize env config a).app = a ∧
      (a = App.zero → (App.Initialize env config a).app.DB = none ∧
        (App.Initialize env config a).app.Router = none)) ∧
    (∀ k, 1 ≤ k → k ≤ 5 → env.fails k = false → (∀ j, 1 ≤ j → j < k → env.fails j = true) →
      (App.Initialize env config a).status = .returned ∧
      (App.Initialize env config a).trace.countP (fun ev => ev matches .logFatalf _) = 0 ∧
      Event.dbMigrate (env.gormOpen k).db ∈ (App.Initialize env config a).trace ∧
      (App.Initialize env config a).app.DB = env.DBMigrate (env.gormOpen k).db) := by
  obtain ⟨h1, h2, h3⟩ := Initialize_opens env config a
  have hb := lastAttempt_bounds env
  have c1 := count_attemptsEvents env config (lastAttempt env)
  have c2 := count_fixed config
  have key : env.fails (lastAttempt env) = true ↔ ∀ k, 1 ≤ k → k ≤ 5 → env.fails k = true := by
    constructor
    · intro hf k k1 k5
      have h5 : lastAttempt env = 5 := by
        rcases lastAttempt_stops env with hs | hs
        · rw [hs] at hf; cases hf
        · exact hs
      rcases Nat.lt_or_ge k 5 with hk | hk
      · exact lastAttempt_before env k k1 (by omega)
      · have : k = 5 := by omega
        rw [this, ← h5]; exact hf
    · intro hall
      exact hall _ hb.1 hb.2
  have nolog : ∀ n, (attemptsEvents env config n).countP (fun ev => ev matches .logFatalf _) = 0 := by
    intro n
    induction n with
    | zero => rfl
    | succ n ih =>
      cases hf : env.fails (n + 1) <;>
        simp [attemptsEvents, attemptEvents, hf, List.countP_append, List.countP_cons, ih]
  refine ⟨h2.trans key, ?_, ?_⟩
  · intro hex
    have hf := h2.1 hex
    have h5 : lastAttempt env = 5 := lastAttempt_eq_five env (key.1 hf)
    obtain ⟨e, he1, he⟩ := Initialize_exited env config a hf
    rw [he]
    refine ⟨⟨e, h5 ▸ he1, by simp, ?_⟩, ?_, ?_, rfl, ?_⟩
    · simp [List.countP_append, List.countP_cons, nolog, preamble]
    · simp [List.countP_append, c1.2.2.2.1, c2.2.2.2.1, Event.isMigrate]
    · simp [List.countP_append, c1.2.2.2.2.1, c2.2.2.2.2.1, Event.isRegistration]
    · intro ha
      rw [ha]
      exact ⟨rfl, rfl⟩
  · intro k k1 k5 hk hj
    have hl := lastAttempt_eq_first env k k1 k5 hk hj
    have hf : env.fails (lastAttempt env) = false := by rw [hl]; exact hk
    rw [Initialize_returned env config a hf, hl]
    refine ⟨rfl, ?_, by simp, rfl⟩
    have hreg : registrationEvents.countP (fun ev => ev matches .logFatalf _) = 0 := by decide
    simp [List.countP_append, List.countP_cons, nolog, preamble, hreg]

theorem attemptsEvents_getLast (env : Env) (config : DBConfig) (n : Nat)
    (h : env.fails (n + 1) = false) :
    (attemptsEvents env config (n + 1)).getLast? =
      some (.gormOpen config.Dialect (dbURI config)) := by
  simp [attemptsEvents, attemptEvents, h]

/-- C9: in a run of `Initialize` the connection attempts `1, ..., n` each consist of the
call of `gorm.Open` followed, exactly when it failed, by a log entry and one sleep of five
seconds; nothing else sleeps. The number of sleeps is the number of failed attempts, and
when all five attempts fail the run sleeps five times, 25 seconds in all, the last sleep
coming after the fifth attempt and right before `log.Fatalf`. -/
theorem sleep_after_every_failure (env : Env) (config : DBConfig) (a : App) :
    (∃ n rest, 1 ≤ n ∧ n ≤ 5 ∧
      (App.Initialize env config a).trace = preamble config ++ attemptsEvents env config n ++ rest ∧
      rest.countP Event.isOpen = 0 ∧ rest.countP Event.isSleep = 0 ∧
      (App.Initialize env config a).trace.countP Event.isOpen = n ∧
      (App.Initialize env config a).trace.countP Event.isSleep = failuresUpTo env n) ∧
    (∀ k, attemptEvents env config k =
      if env.fails k = true then
        [.gormOpen config.Dialect (dbURI config), .logPrint "Connection failed, retrying...",
          .sleep (5 * Second)]
      else [.gormOpen config.Dialect (dbURI config)]) ∧
    (∀ ev ∈ (App.Initialize env config a).trace, ev.isSleep = true → ev = .sleep (5 * Second)) ∧
    sleptTotal (App.Initialize env config a).trace =
      (App.Initialize env config a).trace.countP Event.isSleep * (5 * Second) ∧
    ((∀ k, 1 ≤ k → k ≤ 5 → env.fails k = true) →
      (App.Initialize env config a).trace.countP Event.isOpen = 5 ∧
      (App.Initialize env config a).trace.countP Event.isSleep = 5 ∧
      sleptTotal (App.Initialize env config a).trace = 25 * Second ∧
      ∃ front e, (App.Initialize env config a).trace =
          front ++ [.gormOpen config.Dialect (dbURI config),
            .logPrint "Connection failed, retrying...", .sleep (5 * Second),
            .logFatalf ("Could not connect to the database. " ++ e)] ∧
        front.countP Event.isOpen = 4 ∧ front.countP Event.isSleep = 4) := by
  have hb := lastAttempt_bounds env
  have c1 := count_attemptsEvents env config (lastAttempt env)
  have c2 := count_fixed config
  have hk : ∀ k, attemptEvents env config k =
      if env.fails k = true then
        [.gormOpen config.Dialect (dbURI config), .logPrint "Connection failed, retrying...",
          .sleep (5 * Second)]
      else [.gormOpen config.Dialect (dbURI config)] := by
    intro k
    cases hf : env.fails k <;> simp [attemptEvents, hf]
  have hpre : ∀ ev ∈ preamble config, ev.isSleep = true → ev = .sleep (5 * Second) := by
    intro ev hev hs
    simp only [preamble, List.mem_cons, List.mem_singleton, List.not_mem_nil, or_false] at hev
    rcases hev with rfl | rfl <;> cases hs
  have hreg : ∀ ev ∈ registrationEvents, ev.isSleep = true → ev = .sleep (5 * Second) := by
    intro ev hev hs
    have h0 := c2.2.2.2.2.2.2.1
    rw [List.countP_eq_zero] at h0
    exact absurd hs (h0 ev hev)
  cases hf : env.fails (lastAttempt env)
  · rw [Initialize_returned env config a hf]
    refine ⟨⟨lastAttempt env, [.dbMigrate (env.gormOpen (lastAttempt env)).db, .newRouter] ++
        registrationEvents, hb.1, hb.2, by simp, ?_, ?_, ?_, ?_⟩, hk, ?_, ?_, ?_⟩
    · simp [List.countP_append, c2.2.2.2.2.2.1, Event.isOpen]
    · simp [List.countP_append, c2.2.2.2.2.2.2.1, Event.isSleep]
    · simp [List.countP_append, c1.1, c2.1, c2.2.2.2.2.2.1, Event.isOpen]
    · simp [List.countP_append, c1.2.1, c2.2.1, c2.2.2.2.2.2.2.1, Event.isSleep]
    · intro ev hev hs
      simp only [List.mem_append, List.mem_cons, List.mem_singleton, List.not_mem_nil,
        or_false] at hev
      rcases hev with ((hev | hev) | hev | hev) | hev
      · exact hpre ev hev hs
      · exact c1.2.2.2.2.2 ev hev hs
      · subst hev; cases hs
      · subst hev; cases hs
      · exact hreg ev hev hs
    · have e1 := c1.2.2.1
      have e2 := c2.2.2.1
      have e3 := c2.2.2.2.2.2.2.2.1
      unfold sleptTotal at e1 e2 e3 ⊢
      simp [List.countP_append, c1.2.1, c2.2.1, c2.2.2.2.2.2.2.1, Event.isSleep, e1, e2, e3,
        Event.slept]
    · intro hall
      have := hall _ hb.1 hb.2
      rw [hf] at this; cases this
  · obtain ⟨e, _, he⟩ := Initialize_exited env config a hf
    rw [he]
    have h5 : lastAttempt env = 5 := by
      rcases lastAttempt_stops env with hs | hs
      · rw [hs] at hf; cases hf
      · exact hs
    have e1 := c1.2.2.1
    have e2 := c2.2.2.1
    unfold sleptTotal at e1 e2
    have hsl : (preamble config ++ attemptsEvents env config (lastAttempt env) ++
        [Event.logFatalf ("Could not connect to the database. " ++ e)]).countP Event.isSleep
          = failuresUpTo env (lastAttempt env) := by
      simp [List.countP_append, c1.2.1, c2.2.1, Event.isSleep]
    have htot : sleptTotal (preamble config ++ attemptsEvents env config (lastAttempt env) ++
        [Event.logFatalf ("Could not connect to the database. " ++ e)])
          = failuresUpTo env (lastAttempt env) * (5 * Second) := by
      unfold sleptTotal
      simp [e1, e2, Event.slept]
    refine ⟨⟨lastAttempt env, _, hb.1, hb.2, rfl, by simp [Event.isOpen], by simp [Event.isSleep],
      ?_, hsl⟩, hk, ?_, ?_, ?_⟩
    · simp [List.countP_append, c1.1, c2.1, Event.isOpen]
    · intro ev hev hs
      simp only [List.mem_append, List.mem_singleton] at hev
      rcases hev with (hev | hev) | hev
      · exact hpre ev hev hs
      · exact c1.2.2.2.2.2 ev hev hs
      · subst hev; cases hs
    · rw [hsl, htot]
    · intro hall
      have f1 := hall 1 (by omega) (by omega)
      have f2 := hall 2 (by omega) (by omega)
      have f3 := hall 3 (by omega) (by omega)
      have f4 := hall 4 (by omega) (by omega)
      have f5 := hall 5 (by omega) (by omega)
      have hfail : failuresUpTo env 5 = 5 := by
        simp [failuresUpTo, f1, f2, f3, f4, f5]
      have c4 := count_attemptsEvents env config 4
      have hfail4 : failuresUpTo env 4 = 4 := by
        simp [failuresUpTo, f1, f2, f3, f4]
      rw [hsl, htot, h5, hfail]
      refine ⟨?_, rfl, ?_, preamble config ++ attemptsEvents env config 4, e, ?_, ?_, ?_⟩
      · simp [List.countP_append, c2.1, (count_attemptsEvents env config 5).1, Event.isOpen]
      · ring
      · have : attemptsEvents env config 5 =
            attemptsEvents env config 4 ++ attemptEvents env config 5 := rfl
        rw [this, hk 5, f5]
        simp
      · simp [List.countP_append, c2.1, c4.1]
      · simp [List.countP_append, c2.2.1, c4.2.1, hfail4]
theorem Initialize_starts (env : Env) (config : DBConfig) (a : App) :
    ∃ rest, (App.Initialize env config a).trace =
      .logPrint (dbURI config) :: .logPrint "Trying connection to the database..." ::
        (attemptsEvents env config (lastAttempt env) ++ rest) := by
  cases hf : env.fails (lastAttempt env)
  · rw [Initialize_returned env config a hf]
    exact ⟨_, by simp [preamble]; rfl⟩
  · obtain ⟨e, _, he⟩ := Initialize_exited env config a hf
    rw [he]
    exact ⟨_, by simp [preamble]; rfl⟩

theorem dbURI_password_inj (c : DBConfig) (w : String)
    (h : dbURI { c with Password := w } = dbURI c) : w = c.Password := by
  have h2 := congrArg String.toList h
  simp only [dbURI, toList_append, List.append_assoc, List.append_cancel_left_eq] at h2
  have h3 := List.append_cancel_right h2
  exact String.ext h3

/-- C10: the first thing `Initialize` does is to write the connection string to the log,
before any call of `gorm.Open`; the string is
`host=H port=P dbname=N user=U password=W sslmode=S` with the six fields of `config.DB`,
the password verbatim; two configurations that differ in the password only give different
log output. -/
theorem connection_string_logged (env : Env) (config : DBConfig) (a : App) :
    (∃ rest, (App.Initialize env config a).trace = .logPrint (dbURI config) :: rest) ∧
    (logOutput (App.Initialize env config a).trace).head? = some (dbURI config) ∧
    ((App.Initialize env config a).trace.take 2).countP Event.isOpen = 0 ∧
    1 ≤ ((App.Initialize env config a).trace.drop 2).countP Event.isOpen ∧
    dbURI config =
      "host=" ++ config.Host ++ " port=" ++ config.Port ++ " dbname=" ++ config.DbName
        ++ " user=" ++ config.Username ++ " password=" ++ config.Password
        ++ " sslmode=" ++ config.SslMode ∧
    (∀ w : String, w ≠ config.Password →
      logOutput (App.Initialize env { config with Password := w } a).trace ≠
        logOutput (App.Initialize env config a).trace) := by
  obtain ⟨rest, hr⟩ := Initialize_starts env config a
  have hb := lastAttempt_bounds env
  have c1 := count_attemptsEvents env config (lastAttempt env)
  refine ⟨⟨_, hr⟩, ?_, ?_, ?_, rfl, ?_⟩
  · rw [hr]; rfl
  · rw [hr]; rfl
  · rw [hr]
    simp only [List.drop_succ_cons, List.drop_zero, List.countP_append, c1.1]
    omega
  · intro w hw hlog
    obtain ⟨rest2, hr2⟩ := Initialize_starts env { config with Password := w } a
    rw [hr, hr2] at hlog
    simp only [logOutput, List.filterMap_cons, Event.logged, List.cons.injEq] at hlog
    exact hw (dbURI_password_inj config w hlog.1)

/-- C3: each of the fourteen handler methods of `App` makes exactly one call, to the
function of package `handler` of its own name, with the arguments `(a.DB, w, r)`, and
leaves the `App` as it was. -/
theorem wrappers_forward_to_handler (w : ResponseWriter) (r : Request) (s : State) :
    App.GetAllProjects w r s = ⟨s.app, s.trace ++ [.handlerCall .GetAllProjects s.app.DB w r]⟩ ∧
    App.CreateProject w r s = ⟨s.app, s.trace ++ [.handlerCall .CreateProject s.app.DB w r]⟩ ∧
    App.GetProject w r s = ⟨s.app, s.trace ++ [.handlerCall .GetProject s.app.DB w r]⟩ ∧
    App.UpdateProject w r s = ⟨s.app, s.trace ++ [.handlerCall .UpdateProject s.app.DB w r]⟩ ∧
    App.DeleteProject w r s = ⟨s.app, s.trace ++ [.handlerCall .DeleteProject s.app.DB w r]⟩ ∧
    App.ArchiveProject w r s = ⟨s.app, s.trace ++ [.handlerCall .ArchiveProject s.app.DB w r]⟩ ∧
    App.RestoreProject w r s = ⟨s.app, s.trace ++ [.handlerCall .RestoreProject s.app.DB w r]⟩ ∧
    App.GetAllTasks w r s = ⟨s.app, s.trace ++ [.handlerCall .GetAllTasks s.app.DB w r]⟩ ∧
    App.CreateTask w r s = ⟨s.app, s.trace ++ [.handlerCall .CreateTask s.app.DB w r]⟩ ∧
    App.GetTask w r s = ⟨s.app, s.trace ++ [.handlerCall .GetTask s.app.DB w r]⟩ ∧
    App.UpdateTask w r s = ⟨s.app, s.trace ++ [.handlerCall .UpdateTask s.app.DB w r]⟩ ∧
    App.DeleteTask w r s = ⟨s.app, s.trace ++ [.handlerCall .DeleteTask s.app.DB w r]⟩ ∧
    App.CompleteTask w r s = ⟨s.app, s.trace ++ [.handlerCall .CompleteTask s.app.DB w r]⟩ ∧
    App.UndoTask w r s = ⟨s.app, s.trace ++ [.handlerCall .UndoTask s.app.DB w r]⟩ ∧
    (∀ n : HandlerName,
      App.method n w r s = ⟨s.app, s.trace ++ [.handlerCall n s.app.DB w r]⟩) := by
  refine ⟨rfl, rfl, rfl, rfl, rfl, rfl, rfl, rfl, rfl, rfl, rfl, rfl, rfl, rfl, ?_⟩
  intro n
  cases n <;> rfl

/-! ## Lemmas on canonical paths -/

theorem cleanLoop_slash (rooted : Bool) (cs : List Char) (mid : Bool) (dd : Nat)
    (out : List Char) :
    cleanLoop rooted ('/' :: cs) mid dd out = cleanLoop rooted cs false dd out := by
  cases cs <;> cases mid <;> simp [cleanLoop]

theorem cleanLoop_copy_char (rooted : Bool) (c : Char) (cs : List Char) (dd : Nat)
    (out : List Char) (hc : c ≠ '/') :
    cleanLoop rooted (c :: cs) true dd out = cleanLoop rooted cs true dd (c :: out) := by
  cases cs <;> simp [cleanLoop, hc]

theorem cleanLoop_mid_eq (rooted : Bool) (rest : List Char) (dd : Nat) (out : List Char)
    (hr : rest = [] ∨ ∃ r, rest = '/' :: r) :
    cleanLoop rooted rest true dd out = cleanLoop rooted rest false dd out := by
  rcases hr with rfl | ⟨r, rfl⟩
  · simp [cleanLoop]
  · rw [cleanLoop_slash, cleanLoop_slash]

theorem cleanLoop_copy (rooted : Bool) (u rest : List Char) (dd : Nat) (out : List Char)
    (hu : '/' ∉ u) (hr : rest = [] ∨ ∃ r, rest = '/' :: r) :
    cleanLoop rooted (u ++ rest) true dd out = cleanLoop rooted rest false dd (u.reverse ++ out) := by
  induction u generalizing out with
  | nil => simpa using cleanLoop_mid_eq rooted rest dd out hr
  | cons c u ih =>
    have hc : c ≠ '/' := fun h => hu (h ▸ List.mem_cons_self _ _)
    rw [List.cons_append, cleanLoop_copy_char rooted c _ dd out hc,
      ih (c :: out) (fun h => hu (List.mem_cons_of_mem _ h))]
    simp

theorem cleanLoop_segment (u rest : List Char) (out : List Char)
    (hu : ProperSegment u) (hr : rest = [] ∨ ∃ r, rest = '/' :: r) :
    cleanLoop true (u ++ rest) false 1 out =
      cleanLoop true rest false 1 (u.reverse ++ addSlash true out) := by
  obtain ⟨hne, hs, hd, hdd⟩ := hu
  cases u with
  | nil => exact absurd rfl hne
  | cons c u =>
    have hc : c ≠ '/' := fun h => hs (h ▸ List.mem_cons_self _ _)
    have hs2 : '/' ∉ u := fun h => hs (List.mem_cons_of_mem _ h)
    have key : cleanLoop true (c :: (u ++ rest)) false 1 out =
        cleanLoop true (u ++ rest) true 1 (c :: addSlash true out) := by
      cases u with
      | nil =>
        have hcd : c ≠ '.' := fun h => hd (by rw [h])
        rcases hr with rfl | ⟨r, rfl⟩
        · simp [cleanLoop, hc, hcd]
        · simp [cleanLoop, hc, hcd]
      | cons d u =>
        have hdc : d ≠ '/' := fun h => hs2 (h ▸ List.mem_cons_self _ _)
        have h3 : ¬ (c = '.' ∧ d = '.' ∧ (u ++ rest = [] ∨ (u ++ rest).head? = some '/')) := by
          rintro ⟨rfl, rfl, h⟩
          cases u with
          | nil => exact hdd rfl
          | cons e u =>
            have he : e ≠ '/' := fun h =>
              hs2 (List.mem_cons_of_mem _ (h ▸ List.mem_cons_self _ _))
            rcases h with h | h
            · simp at h
            · simp at h
              exact he h
        rw [List.cons_append]
        generalize u ++ rest = cs at h3 ⊢
        simp only [cleanLoop, Bool.false_eq_true, if_false, hc, hdc, and_false, h3]
    rw [List.cons_append, key, cleanLoop_copy true u rest 1 _ hs2 hr]
    simp
theorem pathOf_cons (seg : List Char) (segs : List (List Char)) :
    pathOf (seg :: segs) = '/' :: (seg ++ pathOf segs) := by
  simp [pathOf]

theorem pathOf_shape (segs : List (List Char)) :
    pathOf segs = [] ∨ ∃ r, pathOf segs = '/' :: r := by
  cases segs with
  | nil => exact Or.inl rfl
  | cons seg segs => exact Or.inr ⟨_, pathOf_cons seg segs⟩

theorem cleanLoop_pathOf (segs : List (List Char)) (h : ∀ seg ∈ segs, ProperSegment seg)
    (out : List Char) (ho : 2 ≤ out.length) :
    cleanLoop true (pathOf segs) false 1 out = (pathOf segs).reverse ++ out := by
  induction segs generalizing out with
  | nil => simp [pathOf, cleanLoop]
  | cons seg segs ih =>
    have hp := h seg (List.mem_cons_self _ _)
    have hslash : addSlash true out = '/' :: out := by
      have : out.length ≠ 1 := by omega
      simp [addSlash, this]
    have hlen : 2 ≤ (seg.reverse ++ '/' :: out).length := by
      simp; omega
    rw [pathOf_cons, cleanLoop_slash, cleanLoop_segment seg _ out hp (pathOf_shape segs), hslash,
      ih (fun s hs => h s (List.mem_cons_of_mem _ hs)) _ hlen]
    simp

theorem pathOf_getLast (segs : List (List Char)) (hne : segs ≠ [])
    (h : ∀ seg ∈ segs, ProperSegment seg) : (pathOf segs).getLast? ≠ some '/' := by
  induction segs with
  | nil => exact absurd rfl hne
  | cons seg segs ih =>
    have hp := h seg (List.mem_cons_self _ _)
    rw [pathOf_cons]
    cases segs with
    | nil =>
      intro hl
      have hmem : '/' ∈ seg := by
        have h2 : ('/' :: seg).getLast? = seg.getLast? := by
          cases seg with
          | nil => exact absurd rfl hp.1
          | cons c cs => simp [List.getLast?_cons_cons]
        simp only [pathOf, List.flatMap_nil, List.append_nil] at hl
        rw [h2] at hl
        exact List.mem_of_getLast?_eq_some hl
      exact hp.2.1 hmem
    | cons seg2 segs2 =>
      have ih2 := ih (by simp) (fun s hs => h s (List.mem_cons_of_mem _ hs))
      intro hl
      apply ih2
      have hne2 : pathOf (seg2 :: segs2) ≠ [] := by rw [pathOf_cons]; simp
      have : ('/' :: (seg ++ pathOf (seg2 :: segs2))).getLast? =
          (pathOf (seg2 :: segs2)).getLast? := by
        rw [← List.cons_append, List.getLast?_append_of_ne_nil _ hne2]
      rw [← this]; exact hl

/-- A path made of proper segments is in canonical form: `cleanPath` leaves it as it is. -/
theorem cleanPath_pathOf (segs : List (List Char)) (hne : segs ≠ [])
    (h : ∀ seg ∈ segs, ProperSegment seg) : cleanPath (pathOf segs) = pathOf segs := by
  have hl := pathOf_getLast segs hne h
  cases segs with
  | nil => exact absurd rfl hne
  | cons seg segs =>
    have hp := h seg (List.mem_cons_self _ _)
    have hclean : pathClean (pathOf (seg :: segs)) = pathOf (seg :: segs) := by
      have hlen : 2 ≤ (seg.reverse ++ ['/']).length := by
        have : seg.length ≠ 0 := fun h0 => hp.1 (List.length_eq_zero.1 h0)
        simp; omega
      have hslash : addSlash true ['/'] = ['/'] := by simp [addSlash]
      have hout : cleanLoop true (seg ++ pathOf segs) false 1 ['/'] =
          (pathOf segs).reverse ++ (seg.reverse ++ ['/']) := by
        rw [cleanLoop_segment seg _ _ hp (pathOf_shape segs), hslash,
          cleanLoop_pathOf segs (fun s hs => h s (List.mem_cons_of_mem _ hs)) _ hlen]
      rw [pathOf_cons]
      simp only [pathClean, if_true, hout]
      simp
    unfold cleanPath
    rw [pathOf_cons] at hl hclean ⊢
    simp only [List.head?_cons, ne_eq, not_true_eq_false, if_false, hclean, hl, false_and]
    simp
/-! ## Lemmas on serving -/

theorem toList_mk (cs : List Char) : (String.mk cs).toList = cs := rfl

theorem ServeHTTP_handler_iff (r : Router) (m p : String) (h : HandlerName) :
    r.ServeHTTP m p = .handler h ↔ cleanPath p.toList = p.toList ∧ r.Match m p = some h := by
  unfold Router.ServeHTTP
  by_cases hc : cleanPath p.toList = p.toList
  · simp only [hc, ne_eq, not_true_eq_false, if_false, true_and]
    cases r.Match m p <;> simp
  · simp only [ne_eq, hc, not_false_eq_true, if_true, false_and]
    constructor
    · intro h2; cases h2
    · intro h2; exact h2.elim

theorem proper_of_title (t : String) (hne : t ≠ "") (ht : SlashFree t) (h1 : t ≠ ".")
    (h2 : t ≠ "..") : ProperSegment t.toList := by
  refine ⟨toList_ne_nil t hne, ht, ?_, ?_⟩
  · intro h
    exact h1 (String.ext h)
  · intro h
    exact h2 (String.ext h)

theorem proper_of_digits (i : String) (hi : IsDigits i) : ProperSegment i.toList := by
  obtain ⟨hne, hd⟩ := hi
  refine ⟨hne, ?_, ?_, ?_⟩
  · intro h
    exact absurd (hd _ h) (by decide)
  · intro h
    exact absurd (hd '.' (by rw [h]; simp)) (by decide)
  · intro h
    exact absurd (hd '.' (by rw [h]; simp)) (by decide)

theorem proper_literal :
    ProperSegment "projects".toList ∧ ProperSegment "archive".toList ∧
    ProperSegment "tasks".toList ∧ ProperSegment "complete".toList := by
  unfold ProperSegment
  decide

/-- The four shapes of path below `/projects` are canonical when the title and the id are
proper segments. -/
theorem canonical_paths (t i : String) (ht : ProperSegment t.toList) :
    cleanPath ("/projects/" ++ t).toList = ("/projects/" ++ t).toList ∧
    cleanPath ("/projects/" ++ t ++ "/archive").toList
      = ("/projects/" ++ t ++ "/archive").toList ∧
    (ProperSegment i.toList →
      cleanPath ("/projects/" ++ t ++ "/tasks/" ++ i).toList
        = ("/projects/" ++ t ++ "/tasks/" ++ i).toList ∧
      cleanPath ("/projects/" ++ t ++ "/tasks/" ++ i ++ "/complete").toList
        = ("/projects/" ++ t ++ "/tasks/" ++ i ++ "/complete").toList) := by
  obtain ⟨p1, p2, p3, p4⟩ := proper_literal
  have e1 : ("/projects/" ++ t).toList = pathOf ["projects".toList, t.toList] := by
    simp [pathOf, toList_append]
  have e2 : ("/projects/" ++ t ++ "/archive").toList
      = pathOf ["projects".toList, t.toList, "archive".toList] := by
    simp [pathOf, toList_append]
  have e3 : ("/projects/" ++ t ++ "/tasks/" ++ i).toList
      = pathOf ["projects".toList, t.toList, "tasks".toList, i.toList] := by
    simp [pathOf, toList_append]
  have e4 : ("/projects/" ++ t ++ "/tasks/" ++ i ++ "/complete").toList
      = pathOf ["projects".toList, t.toList, "tasks".toList, i.toList, "complete".toList] := by
    simp [pathOf, toList_append]
  refine ⟨?_, ?_, fun hi => ⟨?_, ?_⟩⟩
  · rw [e1]
    exact cleanPath_pathOf _ (by simp) (by
      intro s hs
      simp only [List.mem_cons, List.mem_singleton, List.not_mem_nil, or_false] at hs
      rcases hs with rfl | rfl
      · exact p1
      · exact ht)
  · rw [e2]
    exact cleanPath_pathOf _ (by simp) (by
      intro s hs
      simp only [List.mem_cons, List.mem_singleton, List.not_mem_nil, or_false] at hs
      rcases hs with rfl | rfl | rfl
      · exact p1
      · exact ht
      · exact p2)
  · rw [e3]
    exact cleanPath_pathOf _ (by simp) (by
      intro s hs
      simp only [List.mem_cons, List.mem_singleton, List.not_mem_nil, or_false] at hs
      rcases hs with rfl | rfl | rfl | rfl
      · exact p1
      · exact ht
      · exact p3
      · exact hi)
  · rw [e4]
    exact cleanPath_pathOf _ (by simp) (by
      intro s hs
      simp only [List.mem_cons, List.mem_singleton, List.not_mem_nil, or_false] at hs
      rcases hs with rfl | rfl | rfl | rfl | rfl
      · exact p1
      · exact ht
      · exact p3
      · exact hi
      · exact p4)
theorem served_of_route (rt : Route) (m p : String) (hrt : rt ∈ routeTable)
    (hm : rt.methods = some [m]) (hp : rt.matchesPath p = true)
    (hc : cleanPath p.toList = p.toList) :
    Router.ServeHTTP builtRouter m p = .handler rt.handler :=
  (ServeHTTP_handler_iff builtRouter m p rt.handler).2
    ⟨hc, dispatch_of_match rt m p hrt (Match_of_path rt m p hm hp)⟩

theorem route_of_served (m p : String) (h : HandlerName)
    (hs : Router.ServeHTTP builtRouter m p = .handler h) :
    ∃ rt ∈ routeTable, rt.Match m p = true ∧ rt.handler = h :=
  match_of_dispatch m p h ((ServeHTTP_handler_iff builtRouter m p h).1 hs).2

/-- A path that a route for `/projects/{title}/tasks/{id:[0-9]+}` matches ends in a digit. -/
theorem task_path_ends_in_digit (rt : Route) (p : String)
    (hp : rt.path = "/projects/{title}/tasks/{id:[0-9]+}") (h : rt.matchesPath p = true) :
    ∃ c, p.toList.getLast? = some c ∧ c.isDigit = true := by
  rw [matchesPath_iff rt _ _ (hp ▸ compile_task), matches_task] at h
  obtain ⟨u, i, _, _, hi, hd, he⟩ := h
  rw [he, List.append_nil, List.getLast?_append_of_ne_nil _ hi]
  cases hl : i.getLast? with
  | none => exact absurd (List.getLast?_eq_none_iff.1 hl) hi
  | some c => exact ⟨c, rfl, hd c (List.mem_of_getLast?_eq_some hl)⟩

/-- A request for a path that ends in a letter and holds at least three `/` reaches neither
`DeleteProject` nor `DeleteTask`. -/
theorem not_deleted (m p : String) (hl : p.toList.getLast? = some 'e')
    (hs : 3 ≤ slashes p.toList) :
    Router.ServeHTTP builtRouter m p ∉
      [Served.handler .DeleteProject, Served.handler .DeleteTask] := by
  intro hmem
  simp only [List.mem_cons, List.mem_singleton, List.not_mem_nil, or_false] at hmem
  rcases hmem with h | h
  · obtain ⟨rt, hrt, hm, hh⟩ := route_of_served m p _ h
    have hpath := (routeTable_paths rt hrt).1 (by rw [hh]; decide)
    have hmat := (matchesPath_iff rt _ p (hpath ▸ compile_project)).1 (path_of_Match rt m p hm)
    have hcount := Matches_slashes _ _ hmat
    have h2 : pieceSlashes [.lit "/projects/".toList, .plus .notSlash, .lit []] = 2 := by
      decide
    omega
  · obtain ⟨rt, hrt, hm, hh⟩ := route_of_served m p _ h
    have hpath := (routeTable_paths rt hrt).2.1 (by rw [hh]; decide)
    obtain ⟨c, hc, hd⟩ := task_path_ends_in_digit rt p hpath (path_of_Match rt m p hm)
    rw [hl] at hc
    simp only [Option.some.injEq] at hc
    subst hc
    revert hd
    decide
/-- C6, amended: for every non-empty slash-free title `t` other than `.` and `..` and every
text `x`, the task routes match `/projects/t/tasks/x` and the complete routes
`/projects/t/tasks/x/complete` exactly when `x` is a non-empty text of digits, and exactly
then the served request reaches the task handler of its method; `{title}` matches exactly
the non-empty texts without slash; a request whose task id is not such a text of digits
reaches no task handler, and no handler at all when the id holds no slash. -/
theorem task_routes_need_digits (t x : String) (hne : t ≠ "") (ht : SlashFree t)
    (hdot : t ≠ ".") (hdots : t ≠ "..") :
    (∀ rt ∈ routeTable, rt.handler ∈ [HandlerName.GetTask, .UpdateTask, .DeleteTask] →
      (rt.matchesPath ("/projects/" ++ t ++ "/tasks/" ++ x) = true ↔ IsDigits x)) ∧
    (∀ rt ∈ routeTable, rt.handler ∈ [HandlerName.CompleteTask, .UndoTask] →
      (rt.matchesPath ("/projects/" ++ t ++ "/tasks/" ++ x ++ "/complete") = true ↔
        IsDigits x)) ∧
    (∀ rt ∈ routeTable, rt.handler ∈ [HandlerName.GetProject, .UpdateProject, .DeleteProject] →
      ∀ u : String, (rt.matchesPath ("/projects/" ++ u) = true ↔ u ≠ "" ∧ SlashFree u)) ∧
    ((Router.ServeHTTP builtRouter "GET" ("/projects/" ++ t ++ "/tasks/" ++ x)
        = .handler .GetTask ↔ IsDigits x) ∧
      (Router.ServeHTTP builtRouter "PUT" ("/projects/" ++ t ++ "/tasks/" ++ x)
        = .handler .UpdateTask ↔ IsDigits x) ∧
      (Router.ServeHTTP builtRouter "DELETE" ("/projects/" ++ t ++ "/tasks/" ++ x)
        = .handler .DeleteTask ↔ IsDigits x) ∧
      (Router.ServeHTTP builtRouter "PUT" ("/projects/" ++ t ++ "/tasks/" ++ x ++ "/complete")
        = .handler .CompleteTask ↔ IsDigits x) ∧
      (Router.ServeHTTP builtRouter "DELETE" ("/projects/" ++ t ++ "/tasks/" ++ x ++ "/complete")
        = .handler .UndoTask ↔ IsDigits x)) ∧
    (¬ IsDigits x → ∀ m : String,
      Router.ServeHTTP builtRouter m ("/projects/" ++ t ++ "/tasks/" ++ x)
        ∉ [Served.handler .GetTask, .handler .UpdateTask, .handler .DeleteTask] ∧
      Router.ServeHTTP builtRouter m ("/projects/" ++ t ++ "/tasks/" ++ x ++ "/complete")
        ∉ [Served.handler .CompleteTask, .handler .UndoTask]) ∧
    (¬ IsDigits x → SlashFree x → ∀ (m : String) (h : HandlerName),
      Router.ServeHTTP builtRouter m ("/projects/" ++ t ++ "/tasks/" ++ x) ≠ .handler h ∧
      Router.ServeHTTP builtRouter m ("/projects/" ++ t ++ "/tasks/" ++ x ++ "/complete")
        ≠ .handler h) := by
  have hne2 := toList_ne_nil t hne
  have hprop := proper_of_title t hne ht hdot hdots
  have hT : ∀ rt ∈ routeTable, rt.handler ∈ [HandlerName.GetTask, .UpdateTask, .DeleteTask] →
      (rt.matchesPath ("/projects/" ++ t ++ "/tasks/" ++ x) = true ↔ IsDigits x) :=
    fun rt hrt hh => matchesPath_task rt t x ((routeTable_paths rt hrt).2.1 hh) hne2 ht
  have hC : ∀ rt ∈ routeTable, rt.handler ∈ [HandlerName.CompleteTask, .UndoTask] →
      (rt.matchesPath ("/projects/" ++ t ++ "/tasks/" ++ x ++ "/complete") = true ↔
        IsDigits x) :=
    fun rt hrt hh => matchesPath_complete rt t x ((routeTable_paths rt hrt).2.2 hh) hne2 ht
  have backT : ∀ (m : String) (h : HandlerName),
      h ∈ [HandlerName.GetTask, .UpdateTask, .DeleteTask] →
      Router.ServeHTTP builtRouter m ("/projects/" ++ t ++ "/tasks/" ++ x) = .handler h →
      IsDigits x := by
    intro m h hh hs
    obtain ⟨rt, hrt, hm, rfl⟩ := route_of_served m _ h hs
    exact (hT rt hrt hh).1 (path_of_Match rt m _ hm)
  have backC : ∀ (m : String) (h : HandlerName),
      h ∈ [HandlerName.CompleteTask, .UndoTask] →
      Router.ServeHTTP builtRouter m ("/projects/" ++ t ++ "/tasks/" ++ x ++ "/complete")
        = .handler h → IsDigits x := by
    intro m h hh hs
    obtain ⟨rt, hrt, hm, rfl⟩ := route_of_served m _ h hs
    exact (hC rt hrt hh).1 (path_of_Match rt m _ hm)
  have fwdT : ∀ rt ∈ routeTable, ∀ m : String, rt.methods = some [m] →
      rt.handler ∈ [HandlerName.GetTask, .UpdateTask, .DeleteTask] → IsDigits x →
      Router.ServeHTTP builtRouter m ("/projects/" ++ t ++ "/tasks/" ++ x)
        = .handler rt.handler :=
    fun rt hrt m hm hh hx => served_of_route rt m _ hrt hm ((hT rt hrt hh).2 hx)
      ((canonical_paths t x hprop).2.2 (proper_of_digits x hx)).1
  have fwdC : ∀ rt ∈ routeTable, ∀ m : String, rt.methods = some [m] →
      rt.handler ∈ [HandlerName.CompleteTask, .UndoTask] → IsDigits x →
      Router.ServeHTTP builtRouter m ("/projects/" ++ t ++ "/tasks/" ++ x ++ "/complete")
        = .handler rt.handler :=
    fun rt hrt m hm hh hx => served_of_route rt m _ hrt hm ((hC rt hrt hh).2 hx)
      ((canonical_paths t x hprop).2.2 (proper_of_digits x hx)).2
  refine ⟨hT, hC, ?_, ⟨⟨?_, ?_⟩, ⟨?_, ?_⟩, ⟨?_, ?_⟩, ⟨?_, ?_⟩, ⟨?_, ?_⟩⟩, ?_, ?_⟩
  · intro rt hrt hh u
    rw [matchesPath_project rt u ((routeTable_paths rt hrt).1 hh)]
    constructor
    · rintro ⟨h1, h2⟩
      refine ⟨?_, h2⟩
      rintro rfl
      exact h1 rfl
    · rintro ⟨h1, h2⟩
      exact ⟨toList_ne_nil u h1, h2⟩
  · exact backT _ _ (by decide)
  · exact fwdT ⟨"/projects/{title}/tasks/{id:[0-9]+}", .GetTask, some ["GET"]⟩ (by decide) _ rfl
      (by decide)
  · exact backT _ _ (by decide)
  · exact fwdT ⟨"/projects/{title}/tasks/{id:[0-9]+}", .UpdateTask, some ["PUT"]⟩ (by decide) _
      rfl (by decide)
  · exact backT _ _ (by decide)
  · exact fwdT ⟨"/projects/{title}/tasks/{id:[0-9]+}", .DeleteTask, some ["DELETE"]⟩ (by decide)
      _ rfl (by decide)
  · exact backC _ _ (by decide)
  · exact fwdC ⟨"/projects/{title}/tasks/{id:[0-9]+}/complete", .CompleteTask, some ["PUT"]⟩
      (by decide) _ rfl (by decide)
  · exact backC _ _ (by decide)
  · exact fwdC ⟨"/projects/{title}/tasks/{id:[0-9]+}/complete", .UndoTask, some ["DELETE"]⟩
      (by decide) _ rfl (by decide)
  · intro hx m
    constructor
    · intro hmem
      simp only [List.mem_cons, List.mem_singleton, List.not_mem_nil, or_false] at hmem
      rcases hmem with h | h | h
      · exact hx (backT m _ (by decide) h)
      · exact hx (backT m _ (by decide) h)
      · exact hx (backT m _ (by decide) h)
    · intro hmem
      simp only [List.mem_cons, List.mem_singleton, List.not_mem_nil, or_false] at hmem
      rcases hmem with h | h
      · exact hx (backC m _ (by decide) h)
      · exact hx (backC m _ (by decide) h)
  · intro hx hsx m h
    have hnone := no_match_of_not_digits t x m hne2 ht hsx hx
    constructor
    · intro hs
      have := ((ServeHTTP_handler_iff builtRouter m _ h).1 hs).2
      rw [dispatch_none m _ hnone.1] at this
      cases this
    · intro hs
      have := ((ServeHTTP_handler_iff builtRouter m _ h).1 hs).2
      rw [dispatch_none m _ hnone.2] at this
      cases this

/-- The amended C6 at the title `Alpha`, with the ids `42` and `x1`. -/
theorem task_routes_need_digits_witness :
    ("Alpha" ≠ "" ∧ SlashFree "Alpha" ∧ "Alpha" ≠ "." ∧ "Alpha" ≠ ".." ∧ IsDigits "42" ∧
      ¬ IsDigits "x1" ∧ SlashFree "x1") ∧
    Router.ServeHTTP builtRouter "GET" ("/projects/" ++ "Alpha" ++ "/tasks/" ++ "42")
      = .handler .GetTask ∧
    Router.ServeHTTP builtRouter "GET" ("/projects/" ++ "Alpha" ++ "/tasks/" ++ "x1")
      ≠ .handler .GetTask :=
  ⟨⟨by decide, by decide, by decide, by decide, by decide, by decide, by decide⟩,
    (task_routes_need_digits "Alpha" "42" (by decide) (by decide) (by decide)
      (by decide)).2.2.2.1.1.2 (by decide),
    ((task_routes_need_digits "Alpha" "x1" (by decide) (by decide) (by decide)
      (by decide)).2.2.2.2.2 (by decide) (by decide) "GET" .GetTask).1⟩

/-- C6 as stated fails at the titles that are empty, `.` or `..`, none of which holds a
slash, with the id `1`, a text of digits. No route matches `/projects//tasks/1` or
`/projects//tasks/1/complete`, and `{title}` does not match the empty text in `/projects/`;
the requests for `/projects/./tasks/1` and `/projects/../tasks/1` are answered with a
redirect and reach no handler. -/
theorem empty_title_matches_no_route :
    (SlashFree "" ∧ SlashFree "." ∧ SlashFree ".." ∧ IsDigits "1") ∧
    (∀ rt ∈ routeTable, rt.matchesPath ("/projects/" ++ "" ++ "/tasks/" ++ "1") = false) ∧
    (∀ rt ∈ routeTable,
      rt.matchesPath ("/projects/" ++ "" ++ "/tasks/" ++ "1" ++ "/complete") = false) ∧
    (∀ rt ∈ routeTable, rt.matchesPath ("/projects/" ++ "") = false) ∧
    Router.ServeHTTP builtRouter "GET" ("/projects/" ++ "" ++ "/tasks/" ++ "1")
      = .redirect "/projects/tasks/1" ∧
    Router.ServeHTTP builtRouter "GET" ("/projects/" ++ "." ++ "/tasks/" ++ "1")
      = .redirect "/projects/tasks/1" ∧
    Router.ServeHTTP builtRouter "GET" ("/projects/" ++ ".." ++ "/tasks/" ++ "1")
      = .redirect "/tasks/1" ∧
    Router.ServeHTTP builtRouter "PUT" ("/projects/" ++ "." ++ "/tasks/" ++ "1" ++ "/complete")
      = .redirect "/projects/tasks/1/complete" := by
  decide
theorem undo_path_shape (pre : String) (sfx : String)
    (h1 : sfx.toList.getLast? = some 'e') (h2 : 1 ≤ slashes sfx.toList) :
    ("/projects/" ++ pre ++ sfx).toList.getLast? = some 'e' ∧
    3 ≤ slashes ("/projects/" ++ pre ++ sfx).toList := by
  have hne : sfx.toList ≠ [] := by
    intro h
    rw [h] at h1
    cases h1
  constructor
  · rw [toList_append, List.getLast?_append_of_ne_nil _ hne, h1]
  · have h3 : slashes "/projects/".toList = 2 := by decide
    simp only [toList_append, slashes_append, h3]
    omega

/-- C7, amended: for every non-empty slash-free title `t` other than `.` and `..` and every
non-empty text of digits `i`, the request `DELETE /projects/t/archive` is served by
`RestoreProject` and `DELETE /projects/t/tasks/i/complete` by `UndoTask`, while
`DELETE /projects/t` is served by `DeleteProject` and `DELETE /projects/t/tasks/i` by
`DeleteTask`, also for the titles `archive` and `tasks`. Whatever the title and the id, a
request for an undo path reaches neither `DeleteProject` nor `DeleteTask`. -/
theorem undo_never_deletes (t i : String) (hne : t ≠ "") (ht : SlashFree t)
    (hdot : t ≠ ".") (hdots : t ≠ "..") (hi : IsDigits i) :
    Router.ServeHTTP builtRouter "DELETE" ("/projects/" ++ t ++ "/archive")
      = .handler .RestoreProject ∧
    Router.ServeHTTP builtRouter "DELETE" ("/projects/" ++ t ++ "/tasks/" ++ i ++ "/complete")
      = .handler .UndoTask ∧
    Router.ServeHTTP builtRouter "DELETE" ("/projects/" ++ t) = .handler .DeleteProject ∧
    Router.ServeHTTP builtRouter "DELETE" ("/projects/" ++ t ++ "/tasks/" ++ i)
      = .handler .DeleteTask ∧
    Router.ServeHTTP builtRouter "DELETE" "/projects/archive" = .handler .DeleteProject ∧
    Router.ServeHTTP builtRouter "DELETE" "/projects/tasks" = .handler .DeleteProject ∧
    Router.ServeHTTP builtRouter "DELETE" "/projects/archive/archive"
      = .handler .RestoreProject ∧
    Router.ServeHTTP builtRouter "DELETE" "/projects/tasks/archive"
      = .handler .RestoreProject ∧
    (∀ (m u v : String),
      Router.ServeHTTP builtRouter m ("/projects/" ++ u ++ "/archive")
        ∉ [Served.handler .DeleteProject, Served.handler .DeleteTask] ∧
      Router.ServeHTTP builtRouter m ("/projects/" ++ u ++ "/tasks/" ++ v ++ "/complete")
        ∉ [Served.handler .DeleteProject, Served.handler .DeleteTask]) := by
  have hne2 := toList_ne_nil t hne
  have hprop := proper_of_title t hne ht hdot hdots
  have hcan := canonical_paths t i hprop
  have hcan2 := hcan.2.2 (proper_of_digits i hi)
  refine ⟨?_, ?_, ?_, ?_, by decide, by decide, by decide, by decide, ?_⟩
  · exact served_of_route ⟨"/projects/{title}/archive", .RestoreProject, some ["DELETE"]⟩ _ _
      (by decide) rfl (matchesPath_archive _ t rfl hne2 ht) hcan.2.1
  · exact served_of_route
      ⟨"/projects/{title}/tasks/{id:[0-9]+}/complete", .UndoTask, some ["DELETE"]⟩ _ _
      (by decide) rfl ((matchesPath_complete _ t i rfl hne2 ht).2 hi) hcan2.2
  · exact served_of_route ⟨"/projects/{title}", .DeleteProject, some ["DELETE"]⟩ _ _
      (by decide) rfl ((matchesPath_project _ t rfl).2 ⟨hne2, ht⟩) hcan.1
  · exact served_of_route ⟨"/projects/{title}/tasks/{id:[0-9]+}", .DeleteTask, some ["DELETE"]⟩
      _ _ (by decide) rfl ((matchesPath_task _ t i rfl hne2 ht).2 hi) hcan2.1
  · intro m u v
    have s1 := undo_path_shape u "/archive" (by decide) (by decide)
    have s2 := undo_path_shape (u ++ "/tasks/" ++ v) "/complete" (by decide) (by decide)
    refine ⟨not_deleted m _ s1.1 s1.2, ?_⟩
    have e : "/projects/" ++ u ++ "/tasks/" ++ v ++ "/complete"
        = "/projects/" ++ (u ++ "/tasks/" ++ v) ++ "/complete" := by
      apply String.ext
      simp [toList_append]
    rw [e]
    exact not_deleted m _ s2.1 s2.2

/-- The amended C7 at the title `tasks` and the id `42`. -/
theorem undo_never_deletes_witness :
    ("tasks" ≠ "" ∧ SlashFree "tasks" ∧ "tasks" ≠ "." ∧ "tasks" ≠ ".." ∧ IsDigits "42") ∧
    Router.ServeHTTP builtRouter "DELETE" ("/projects/" ++ "tasks" ++ "/archive")
      = .handler .RestoreProject ∧
    Router.ServeHTTP builtRouter "DELETE"
        ("/projects/" ++ "tasks" ++ "/tasks/" ++ "42" ++ "/complete")
      = .handler .UndoTask :=
  ⟨⟨by decide, by decide, by decide, by decide, by decide⟩,
    (undo_never_deletes "tasks" "42" (by decide) (by decide) (by decide) (by decide)
      (by decide)).1,
    (undo_never_deletes "tasks" "42" (by decide) (by decide) (by decide) (by decide)
      (by decide)).2.1⟩

/-- C7 as stated fails at the titles that are empty, `.` or `..`, none of which holds a
slash, and at the empty text of digits: the requests `DELETE /projects//archive`,
`DELETE /projects/./archive`, `DELETE /projects/../archive` and
`DELETE /projects/./tasks/1/complete` are answered with a redirect,
`DELETE /projects/Alpha/tasks//complete` likewise, and `DELETE /projects/` with "not found";
none of them reaches `RestoreProject`, `UndoTask` or `DeleteProject`. -/
theorem undo_empty_segment_not_dispatched :
    (SlashFree "" ∧ SlashFree "." ∧ SlashFree ".." ∧ IsDigits "1") ∧
    Router.ServeHTTP builtRouter "DELETE" ("/projects/" ++ "" ++ "/archive")
      = .redirect "/projects/archive" ∧
    Router.ServeHTTP builtRouter "DELETE" ("/projects/" ++ "." ++ "/archive")
      = .redirect "/projects/archive" ∧
    Router.ServeHTTP builtRouter "DELETE" ("/projects/" ++ ".." ++ "/archive")
      = .redirect "/archive" ∧
    Router.ServeHTTP builtRouter "DELETE" ("/projects/" ++ "." ++ "/tasks/" ++ "1" ++ "/complete")
      = .redirect "/projects/tasks/1/complete" ∧
    Router.ServeHTTP builtRouter "DELETE"
        ("/projects/" ++ "Alpha" ++ "/tasks/" ++ "" ++ "/complete")
      = .redirect "/projects/Alpha/tasks/complete" ∧
    Router.ServeHTTP builtRouter "DELETE" ("/projects/" ++ "") = .noHandler ∧
    Router.ServeHTTP builtRouter "DELETE" ("/projects/" ++ ".") = .redirect "/projects" ∧
    Router.Match builtRouter "DELETE" ("/projects/" ++ "" ++ "/archive") = none := by
  decide
theorem serve_extends (w : ResponseWriter) (r : Request) (s : State) :
    (App.serve w r s).app = s.app ∧
    ∃ ext, (App.serve w r s).trace = s.trace ++ ext ∧
      (∀ ev ∈ ext, ev.isServing = true) ∧
      (s.app.Router = none → ext.countP Event.isHandlerCall = 0) := by
  unfold App.serve
  cases hr : s.app.Router with
  | none =>
    exact ⟨rfl, [.servePanic w], rfl, by simp [Event.isServing], fun _ => rfl⟩
  | some router =>
    simp only
    cases hs : router.ServeHTTP r.Method r.Path with
    | redirect loc =>
      exact ⟨rfl, [.redirect w loc], rfl, by simp [Event.isServing], fun h => by cases h⟩
    | noHandler =>
      exact ⟨rfl, [.notFound w], rfl, by simp [Event.isServing], fun h => by cases h⟩
    | handler h =>
      refine ⟨?_, [.handlerCall h s.app.DB w r], ?_, by simp [Event.isServing],
        fun h => by cases h⟩
      · cases h <;> rfl
      · cases h <;> rfl

theorem serveAll_extends (reqs : List (ResponseWriter × Request)) (s : State) :
    (reqs.foldl (fun st q => App.serve q.1 q.2 st) s).app = s.app ∧
    ∃ ext, (reqs.foldl (fun st q => App.serve q.1 q.2 st) s).trace = s.trace ++ ext ∧
      (∀ ev ∈ ext, ev.isServing = true) ∧
      (s.app.Router = none → ext.countP Event.isHandlerCall = 0) := by
  induction reqs generalizing s with
  | nil => exact ⟨rfl, [], by simp, by simp, fun _ => rfl⟩
  | cons q reqs ih =>
    obtain ⟨ha, e1, h1, hs1, hn1⟩ := serve_extends q.1 q.2 s
    obtain ⟨hb, e2, h2, hs2, hn2⟩ := ih (App.serve q.1 q.2 s)
    simp only [List.foldl_cons]
    refine ⟨hb.trans ha, e1 ++ e2, ?_, ?_, ?_⟩
    · rw [h2, h1, List.append_assoc]
    · intro ev hev
      rcases List.mem_append.1 hev with h | h
      · exact hs1 ev h
      · exact hs2 ev h
    · intro hnil
      rw [List.countP_append, hn1 hnil, hn2 (by rw [ha]; exact hnil)]

/-- The effects of `Run` come after those that precede it: first the listener, then what
the requests cause, then `log.Fatal`. -/
theorem Run_trace (host : String) (reqs : List (ResponseWriter × Request)) (err : String)
    (s : State) :
    ∃ served, (App.Run host reqs err s).trace =
        s.trace ++ .listenAndServe host :: (served ++ [.logFatal err]) ∧
      (∀ ev ∈ served, ev.isServing = true) ∧
      (s.app.Router = none → served.countP Event.isHandlerCall = 0) := by
  obtain ⟨_, ext, h, hs, hn⟩ :=
    serveAll_extends reqs { s with trace := s.trace ++ [.listenAndServe host] }
  refine ⟨ext, ?_, hs, hn⟩
  unfold App.Run
  simp only [h]
  simp

theorem attemptsEvents_not_serving (env : Env) (config : DBConfig) (n : Nat) :
    (attemptsEvents env config n).countP Event.isServing = 0 := by
  induction n with
  | zero => rfl
  | succ n ih =>
    cases hf : env.fails (n + 1) <;>
      simp [attemptsEvents, attemptEvents, hf, List.countP_append, List.countP_cons, ih,
        Event.isServing]
/-- C8: in a run of `Initialize` that does not end in `log.Fatalf`, the effects are, in
order: the log entries and the connection attempts, the last of them successful; one call
of `model.DBMigrate` on the handle of that attempt; the creation of a router; the
registration of the fourteen routes. On return `a.DB` is what `DBMigrate` returned and
`a.Router` holds exactly the fourteen routes; nothing is migrated or registered before
the successful attempt. No request is served before the migration: `Initialize` itself
neither listens nor calls a handler, everything that a following `Run` does (the listener,
the handler calls, the router's own answers) comes after the registrations, and a `Run` on
an `App` whose router is still nil calls no handler. -/
theorem bootstrap_order (env : Env) (config : DBConfig) (a : App)
    (h : (App.Initialize env config a).status ≠ .exited) :
    ∃ n, 1 ≤ n ∧ n ≤ 5 ∧ env.fails n = false ∧
      (App.Initialize env config a).trace =
        preamble config ++ attemptsEvents env config n ++
          [.dbMigrate (env.gormOpen n).db, .newRouter] ++ registrationEvents ∧
      (attemptsEvents env config n).getLast? = some (.gormOpen config.Dialect (dbURI config)) ∧
      (preamble config ++ attemptsEvents env config n).countP Event.isMigrate = 0 ∧
      (preamble config ++ attemptsEvents env config n).countP Event.isRegistration = 0 ∧
      (App.Initialize env config a).trace.countP Event.isMigrate = 1 ∧
      registrationEvents.countP Event.isMigrate = 0 ∧
      registrationEvents = routeTable.flatMap
        (fun rt => [Event.handleFunc rt.path rt.handler, Event.methods (rt.methods.getD [])]) ∧
      routeTable.length = 14 ∧
      (App.Initialize env config a).status = .returned ∧
      (App.Initialize env config a).app.DB = env.DBMigrate (env.gormOpen n).db ∧
      (App.Initialize env config a).app.Router = some ⟨routeTable⟩ ∧
      (App.Initialize env config a).trace.countP Event.isServing = 0 ∧
      (∀ (host : String) (reqs : List (ResponseWriter × Request)) (err : String),
        ∃ served,
          (App.Run host reqs err
              ⟨(App.Initialize env config a).app, (App.Initialize env config a).trace⟩).trace =
            preamble config ++ attemptsEvents env config n ++
              [.dbMigrate (env.gormOpen n).db, .newRouter] ++ registrationEvents ++
              .listenAndServe host :: (served ++ [.logFatal err]) ∧
          (∀ ev ∈ served, ev.isServing = true) ∧
          served.countP Event.isMigrate = 0 ∧ served.countP Event.isRegistration = 0) ∧
      (∀ (host : String) (reqs : List (ResponseWriter × Request)) (err : String) (db : DBPtr)
          (before : List Event),
        (App.Run host reqs err ⟨⟨none, db⟩, before⟩).trace.countP Event.isHandlerCall =
          before.countP Event.isHandlerCall) := by
  obtain ⟨_, h2, _⟩ := Initialize_opens env config a
  have hb := lastAttempt_bounds env
  have c1 := count_attemptsEvents env config (lastAttempt env)
  have c2 := count_fixed config
  have hf : env.fails (lastAttempt env) = false := by
    cases hc : env.fails (lastAttempt env)
    · rfl
    · exact absurd (h2.2 hc) h
  refine ⟨lastAttempt env, hb.1, hb.2, hf, ?_⟩
  rw [Initialize_returned env config a hf]
  refine ⟨rfl, ?_, ?_, ?_, ?_, c2.2.2.2.2.2.2.2.2.1, by decide, by decide, rfl, rfl, rfl,
    ?_, ?_, ?_⟩
  · obtain ⟨m, hm⟩ : ∃ m, lastAttempt env = m + 1 := ⟨lastAttempt env - 1, by omega⟩
    rw [hm] at hf ⊢
    exact attemptsEvents_getLast env config m hf
  · simp [List.countP_append, c1.2.2.2.1, c2.2.2.2.1]
  · simp [List.countP_append, c1.2.2.2.2.1, c2.2.2.2.2.1]
  · simp [List.countP_append, c1.2.2.2.1, c2.2.2.2.1, c2.2.2.2.2.2.2.2.2.1, Event.isMigrate]
  · have hreg : registrationEvents.countP Event.isServing = 0 := by decide
    simp [List.countP_append, attemptsEvents_not_serving, hreg, preamble, Event.isServing]
  · intro host reqs err
    obtain ⟨served, ht, hs, _⟩ := Run_trace host reqs err
      ⟨{ Router := some builtRouter, DB := env.DBMigrate (env.gormOpen (lastAttempt env)).db },
        preamble config ++ attemptsEvents env config (lastAttempt env) ++
          [.dbMigrate (env.gormOpen (lastAttempt env)).db, .newRouter] ++ registrationEvents⟩
    refine ⟨served, ht, hs, ?_, ?_⟩
    · rw [List.countP_eq_zero]
      intro ev hev hm
      have := hs ev hev
      cases ev <;> simp [Event.isServing, Event.isMigrate] at this hm
    · rw [List.countP_eq_zero]
      intro ev hev hm
      have := hs ev hev
      cases ev <;> simp [Event.isServing, Event.isRegistration] at this hm
  · intro host reqs err db before
    obtain ⟨served, ht, _, hn⟩ := Run_trace host reqs err ⟨⟨none, db⟩, before⟩
    rw [ht]
    simp [List.countP_append, List.countP_cons, hn rfl, Event.isHandlerCall]

/-- C8 at `envThird`: the run returns, with the handle of the third attempt, and has
served nothing. -/
theorem bootstrap_order_witness :
    (App.Initialize envThird sampleConfig App.zero).status ≠ .exited ∧
    ∃ n, 1 ≤ n ∧ n ≤ 5 ∧ envThird.fails n = false ∧
      (App.Initialize envThird sampleConfig App.zero).trace =
        preamble sampleConfig ++ attemptsEvents envThird sampleConfig n ++
          [.dbMigrate (envThird.gormOpen n).db, .newRouter] ++ registrationEvents ∧
      (App.Initialize envThird sampleConfig App.zero).trace.countP Event.isServing = 0 :=
  ⟨by decide,
    let ⟨n, h1, h5, hf, ht, _, _, _, _, _, _, _, _, _, _, hs, _⟩ :=
      bootstrap_order envThird sampleConfig App.zero (by decide)
    ⟨n, h1, h5, hf, ht, hs⟩⟩

end TodoApp
